import Mathlib

/-!
Verification of the DynamoDB bundle transaction coordinator
(`dynamoDbBundleService.ts`) and its pure staging helper
(`dynamoDbBundleServiceHelper.ts`).

The TypeScript sources are shallowly embedded below.  Pure functions become
Lean functions; the impure parts (uuid minting, wall-clock timestamps and
checks, DynamoDB calls) are made explicit parameters:

* freshly minted uuids are consumed from a `List String` supply
  (`uuidv4()` is called once per create operation);
* the current timestamp is a `String` parameter `now`;
* elapsed-time checks are boolean parameters (`t1`, `t2`);
* DynamoDB write-batch calls (`transactWriteItems`) are modelled by a store
  value (`Store`), an all-or-nothing batch application (`applyBatch`) and a
  per-call availability oracle (`oracle` / `batchOk` / `chunkOk`) that models
  infrastructure failures thrown by the SDK.

JavaScript-specific semantics (truthiness of strings, `parseInt` prefix
parsing, `x || d` defaulting, template rendering of string arrays) are
modelled by dedicated helpers.
-/

/-- Document lifecycle status, from `documentStatus.ts` (visible in this
repository only through its uses; the closed enum is fixed by the spec's
Status Model section). -/
inductive DOCUMENT_STATUS where
  | AVAILABLE
  | PENDING
  | LOCKED
  | PENDING_DELETE
  | DELETED
deriving DecidableEq, Inhabited

/-- The `TypeOperation` union from `fhir-works-on-aws-interface`.  The bundle
helper handles `create`, `read`, `update`, `delete` and silently skips every
other member of the union (its `default` switch branch). -/
inductive TypeOperation where
  | create
  | read
  | update
  | delete
  | vread
  | patch
  | historyType
  | historyInstance
  | searchType
deriving DecidableEq, Inhabited

/-- A FHIR resource's `meta` block, as used by the coordinator (projection
`id, resourceType, meta`). -/
structure ResourceMeta where
  versionId : String := ""
  lastUpdated : String := ""
deriving DecidableEq, Inhabited

/-- The payload of a FHIR resource, restricted to the fields the embedded
code reads (`resource.id`, `resource.resourceType`, `resource.meta`). -/
structure Resource where
  resourceType : String := ""
  id : String := ""
  meta : Option ResourceMeta := none
deriving DecidableEq, Inhabited

/-- One entry of a transaction request (`BatchReadWriteRequest`).  A missing
`id` (JS `undefined` / empty) is modelled by `""`, matching JS truthiness
checks such as `if (request.id)`. -/
structure BatchReadWriteRequest where
  operation : TypeOperation
  resourceType : String := ""
  id : String := ""
  resource : Resource := {}
deriving DecidableEq, Inhabited

/-- `ItemRequest` from `dynamoDbBundleServiceHelper.ts`: one lock record. -/
structure ItemRequest where
  id : String
  vid : Option String := none
  resourceType : String := ""
  operation : TypeOperation
  isOriginalUpdateItem : Option Bool := none
deriving DecidableEq, Inhabited

/-- `BatchReadWriteResponse`: one response envelope per input operation. -/
structure BatchReadWriteResponse where
  id : String := ""
  vid : String := ""
  operation : TypeOperation
  lastModified : String := ""
  resourceType : String := ""
  resource : Resource := {}
deriving DecidableEq, Inhabited

/-- A staged item as prepared for a DynamoDB `Put`, restricted to the fields
relevant here (key, payload, status, timestamp). -/
structure StagedItem where
  id : String
  vid : String
  resource : Resource
  documentStatus : DOCUMENT_STATUS
  lastUpdated : String
deriving DecidableEq, Inhabited

/-- A store-level request descriptor: the four kinds of DynamoDB actions the
coordinator and helper emit (conditional/unconditional status updates and
deletes from the param builder, `Put` items, point `Get`s). -/
inductive StoreRequest where
  | updateStatus (oldStatus : Option DOCUMENT_STATUS) (newStatus : DOCUMENT_STATUS) (id : String) (vid : String)
  | put (item : StagedItem)
  | deleteRow (id : String) (vid : String)
  | get (id : String) (vid : String)
deriving DecidableEq, Inhabited

/-- An entry of `itemsToRemoveFromLock` produced by rollback generation. -/
structure LockRemoval where
  id : String
  vid : String
  resourceType : String
deriving DecidableEq, Inhabited

/-- `BatchReadWriteErrorType` from the interface package. -/
inductive BatchReadWriteErrorType where
  | USER_ERROR
  | SYSTEM_ERROR
deriving DecidableEq, Inhabited

/-! ## JavaScript semantics helpers -/

/-- JS `x || d` for `x : string | undefined`: `undefined` and `""` are falsy. -/
def jsOrStr (x : Option String) (d : String) : String :=
  match x with
  | some s => if s = "" then d else s
  | none => d

/-- Reading `record[id]` where a missing key yields `undefined`; the string
`"undefined"` models the rendering JS applies when the value flows on into
string contexts and `parseInt` (no digit prefix, hence `NaN`). -/
def vidLookup (m : String → Option String) (id : String) : String :=
  (m id).getD "undefined"

/-- Digit-prefix accumulation for `parseIntJS`. -/
def parseDigitsAcc : List Char → Nat → Nat
  | [], acc => acc
  | c :: cs, acc => parseDigitsAcc cs (acc * 10 + (c.toNat - 48))

/-- JavaScript `parseInt(s, 10)`: skip leading whitespace, optional sign,
then the longest digit prefix; `none` models `NaN` (no digit found). -/
def parseIntJS (s : String) : Option Int :=
  let cs := s.data.dropWhile Char.isWhitespace
  let signAndRest : Int × List Char :=
    match cs with
    | '-' :: rest => (-1, rest)
    | '+' :: rest => (1, rest)
    | _ => (1, cs)
  let ds := signAndRest.2.takeWhile Char.isDigit
  if ds.isEmpty then none
  else some (signAndRest.1 * (parseDigitsAcc ds 0 : Nat))

/-- The new version id computed by the `update` staging branch:
`((parseInt(idToVersionId[id], 10) || 0) + 1).toString()`.
`parseInt` of a missing entry or a non-numeric string is `NaN`, and both
`NaN || 0` and `0 || 0` are `0`, so the fallback is `getD 0`. -/
def updateNewVid (m : String → Option String) (id : String) : String :=
  toString ((parseIntJS (vidLookup m id)).getD 0 + 1)

/-! ## Param builder (`dynamoDbParamBuilder.ts`, not part of this
repository's sources; modelled from the spec) -/

/-- Modelled from the spec: `DynamoDbParamBuilder.LOCK_DURATION_IN_MS`, a
constant surfaced only inside an error message (taken as 35 seconds). -/
def LOCK_DURATION_IN_MS : Nat := 35 * 1000

/-- Modelled from the spec: `buildUpdateDocumentStatusParam(oldStatus | null,
newStatus, id, vid)` builds a single-item status update, conditioned on the
current status equaling `oldStatus` when one is supplied. -/
def buildUpdateDocumentStatusParam (oldStatus : Option DOCUMENT_STATUS)
    (newStatus : DOCUMENT_STATUS) (id : String) (vid : String) : StoreRequest :=
  StoreRequest.updateStatus oldStatus newStatus id vid

/-- Modelled from the spec: `buildDeleteParam(id, vid)` builds an
unconditional delete of one version row. -/
def buildDeleteParam (id : String) (vid : String) : StoreRequest :=
  StoreRequest.deleteRow id vid

/-- Modelled from the spec: `DynamoDbUtil.prepItemForDdbInsert` builds the
versioned item to write: the resource payload keyed by `(id, vid)`, carrying
the given document status and a fresh `meta.lastUpdated` timestamp (`now`). -/
def prepItemForDdbInsert (resource : Resource) (id : String) (vid : String)
    (status : DOCUMENT_STATUS) (now : String) : StagedItem :=
  { id := id, vid := vid, resource := resource, documentStatus := status, lastUpdated := now }

/-! ## Staging helper (`dynamoDbBundleServiceHelper.ts`) -/

/-- The six outputs of `generateStagingRequests`. -/
structure StagingOutput where
  deleteRequests : List StoreRequest
  createRequests : List StoreRequest
  updateRequests : List StoreRequest
  readRequests : List StoreRequest
  newLocks : List ItemRequest
  newStagingResponses : List BatchReadWriteResponse
deriving DecidableEq, Inhabited

/-- `addStagingResponseAndItemsLocked` (private helper): the response
envelope and lock record shared by the create and update branches. -/
def addStagingResponseAndItemsLocked (id : String) (vid : String) (resourceType : String)
    (operation : TypeOperation) (lastModified : String) :
    BatchReadWriteResponse × ItemRequest :=
  ({ id := id, vid := vid, operation := operation, lastModified := lastModified,
     resourceType := resourceType, resource := {} },
   { id := id, vid := vid, resourceType := resourceType, operation := operation,
     isOriginalUpdateItem := if operation = TypeOperation.update then some false else none })

/-- The id a create operation writes under: `request.id` when truthy, else
the next minted uuid. -/
def assignedCreateId (r : BatchReadWriteRequest) (freshIds : List String) : String :=
  if r.id ≠ "" then r.id else freshIds.headD ""

/-- `generateStagingRequests(requests, idToVersionId)`.  The `forEach` loop
appending to six accumulator arrays is expressed as structural recursion that
prepends each operation's contributions; `freshIds` supplies the result of
each `uuidv4()` call (one per create operation) and `now` the timestamps. -/
def generateStagingRequests :
    List BatchReadWriteRequest → (String → Option String) → List String → String → StagingOutput
  | [], _, _, _ => ⟨[], [], [], [], [], []⟩
  | r :: rest, m, freshIds, now =>
    match r.operation with
    | TypeOperation.create =>
      let id := assignedCreateId r freshIds
      let vid := "1"
      let item := prepItemForDdbInsert r.resource id vid DOCUMENT_STATUS.PENDING now
      let sl := addStagingResponseAndItemsLocked id vid r.resourceType r.operation item.lastUpdated
      let out := generateStagingRequests rest m freshIds.tail now
      { out with createRequests := StoreRequest.put item :: out.createRequests,
                 newStagingResponses := sl.1 :: out.newStagingResponses,
                 newLocks := sl.2 :: out.newLocks }
    | TypeOperation.update =>
      let id := r.resource.id
      let vid := updateNewVid m id
      let item := prepItemForDdbInsert r.resource id vid DOCUMENT_STATUS.PENDING now
      let sl := addStagingResponseAndItemsLocked id vid r.resourceType r.operation item.lastUpdated
      let out := generateStagingRequests rest m freshIds now
      { out with updateRequests := StoreRequest.put item :: out.updateRequests,
                 newStagingResponses := sl.1 :: out.newStagingResponses,
                 newLocks := sl.2 :: out.newLocks }
    | TypeOperation.delete =>
      let id := r.id
      let vid := vidLookup m id
      let out := generateStagingRequests rest m freshIds now
      { out with
          deleteRequests :=
            buildUpdateDocumentStatusParam (some DOCUMENT_STATUS.LOCKED)
              DOCUMENT_STATUS.PENDING_DELETE id vid :: out.deleteRequests,
          newStagingResponses :=
            { id := id, vid := vid, operation := r.operation, lastModified := now,
              resource := {}, resourceType := r.resourceType } :: out.newStagingResponses }
    | TypeOperation.read =>
      let id := r.id
      let vid := vidLookup m id
      let out := generateStagingRequests rest m freshIds now
      { out with
          readRequests := StoreRequest.get id vid :: out.readRequests,
          newStagingResponses :=
            { id := id, vid := vid, operation := r.operation, lastModified := "",
              resource := {}, resourceType := r.resourceType } :: out.newStagingResponses }
    | _ => generateStagingRequests rest m freshIds now

/-- The outputs of `generateRollbackRequests`. -/
structure RollbackOutput where
  transactionRequests : List StoreRequest
  itemsToRemoveFromLock : List LockRemoval
deriving DecidableEq, Inhabited

/-- `generateDeleteLatestRecordAndItemToRemoveFromLock` (private helper). -/
def generateDeleteLatestRecordAndItemToRemoveFromLock (resourceType : String)
    (id : String) (vid : String) : StoreRequest × LockRemoval :=
  (buildDeleteParam id vid, { id := id, vid := vid, resourceType := resourceType })

/-- `generateRollbackRequests(bundleEntryResponses)`: one unconditional
delete plus one lock-removal entry per create/update envelope; read and
delete envelopes contribute nothing. -/
def generateRollbackRequests : List BatchReadWriteResponse → RollbackOutput
  | [] => ⟨[], []⟩
  | r :: rest =>
    let out := generateRollbackRequests rest
    match r.operation with
    | TypeOperation.create =>
      let tr := generateDeleteLatestRecordAndItemToRemoveFromLock r.resourceType r.id r.vid
      ⟨tr.1 :: out.transactionRequests, tr.2 :: out.itemsToRemoveFromLock⟩
    | TypeOperation.update =>
      let tr := generateDeleteLatestRecordAndItemToRemoveFromLock r.resourceType r.id r.vid
      ⟨tr.1 :: out.transactionRequests, tr.2 :: out.itemsToRemoveFromLock⟩
    | _ => out

/-- Population of a single read envelope from a returned item: the cleaned
item becomes the envelope's resource, and `lastModified` is
`item?.meta?.lastUpdated ? item.meta.lastUpdated : ''`. -/
def populateOneReadResult (r : BatchReadWriteResponse) (item : Resource) :
    BatchReadWriteResponse :=
  { r with
      resource := item,
      lastModified :=
        match item.meta with
        | some m => if m.lastUpdated ≠ "" then m.lastUpdated else ""
        | none => "" }

/-- `populateBundleEntryResponseWithReadResult(bundleEntryResponses,
readResult)`.  The running `index` into `readResult.Responses` (incremented
only on read envelopes) is expressed by consuming the result list; a missing
row or a row without an `Item` (`none`) throws the fatal incomplete-read
error, modelled by `Except.error`. -/
def populateBundleEntryResponseWithReadResult :
    List BatchReadWriteResponse → List (Option Resource) →
    Except String (List BatchReadWriteResponse)
  | [], _ => Except.ok []
  | r :: rest, results =>
    if r.operation = TypeOperation.read then
      match results with
      | [] => Except.error "Failed to fulfill all READ requests"
      | none :: _ => Except.error "Failed to fulfill all READ requests"
      | some item :: restResults =>
        match populateBundleEntryResponseWithReadResult rest restResults with
        | Except.ok tail => Except.ok (populateOneReadResult r item :: tail)
        | Except.error e => Except.error e
    else
      match populateBundleEntryResponseWithReadResult rest results with
      | Except.ok tail => Except.ok (r :: tail)
      | Except.error e => Except.error e

/-! ## The store model

`dynamoDbHelper.ts`, `dynamoDb.ts` and the DynamoDB client are not part of
this repository's sources; the store itself is modelled from the spec: rows
keyed by `(id, vid)` carrying a document status, an all-or-nothing atomic
write batch whose conditions are checked against the pre-batch snapshot and
which rejects two actions targeting the same key, and a point-get batch. -/

/-- One persisted version row, restricted to the fields the coordinator
reads (projection `id, resourceType, meta`) plus the status flag. -/
structure StoreRow where
  id : String
  vid : String
  resourceType : String := ""
  status : DOCUMENT_STATUS
deriving DecidableEq, Inhabited

/-- The store: a list of version rows. -/
abbrev Store := List StoreRow

/-- The key `(id, vid)` targeted by a store request. -/
def requestKey : StoreRequest → String × String
  | StoreRequest.updateStatus _ _ id vid => (id, vid)
  | StoreRequest.put item => (item.id, item.vid)
  | StoreRequest.deleteRow id vid => (id, vid)
  | StoreRequest.get id vid => (id, vid)

/-- Effect of one action on the store.  An update on a missing key inserts a
bare row (DynamoDB `UpdateItem` upsert); a put replaces the whole row. -/
def applyRequest (store : Store) : StoreRequest → Store
  | StoreRequest.updateStatus _ newStatus id vid =>
    if store.any (fun r => decide (r.id = id ∧ r.vid = vid)) then
      store.map (fun r => if r.id = id ∧ r.vid = vid then { r with status := newStatus } else r)
    else
      store ++ [{ id := id, vid := vid, status := newStatus }]
  | StoreRequest.put item =>
    let row : StoreRow :=
      { id := item.id, vid := item.vid, resourceType := item.resource.resourceType,
        status := item.documentStatus }
    if store.any (fun r => decide (r.id = item.id ∧ r.vid = item.vid)) then
      store.map (fun r => if r.id = item.id ∧ r.vid = item.vid then row else r)
    else
      store ++ [row]
  | StoreRequest.deleteRow id vid =>
    store.filter (fun r => decide (¬(r.id = id ∧ r.vid = vid)))
  | StoreRequest.get _ _ => store

/-- Whether an action's condition expression holds in the given store
snapshot (only conditioned status updates carry one). -/
def condHolds (store : Store) : StoreRequest → Bool
  | StoreRequest.updateStatus (some old) _ id vid =>
    store.any (fun r => decide (r.id = id ∧ r.vid = vid ∧ r.status = old))
  | _ => true

/-- No two keys repeat (DynamoDB rejects a transaction naming one item twice). -/
def nodupKeysB : List (String × String) → Bool
  | [] => true
  | k :: ks => (!ks.contains k) && nodupKeysB ks

/-- All-or-nothing application of an atomic write batch: if every condition
holds against the snapshot and no key repeats, all actions apply; otherwise
nothing does (`none` models the thrown `TransactionCanceledException`). -/
def applyBatch (store : Store) (batch : List StoreRequest) : Option Store :=
  if batch.all (condHolds store) && nodupKeysB (batch.map requestKey) then
    some (batch.foldl applyRequest store)
  else none

/-- One `transactWriteItems` round-trip: `ok = false` models an
infrastructure failure (SDK exception) independent of the batch content. -/
def attemptBatch (ok : Bool) (store : Store) (batch : List StoreRequest) : Option Store :=
  if ok then applyBatch store batch else none

/-- Number of rows of the given logical id currently in `AVAILABLE` status. -/
def availCount (store : Store) (id : String) : Nat :=
  store.countP (fun r => decide (r.id = id ∧ r.status = DOCUMENT_STATUS.AVAILABLE))

/-- Boolean form of the core invariant: no id has two `AVAILABLE` rows. -/
def okStoreB : Store → Bool
  | [] => true
  | r :: rs =>
    (!(decide (r.status = DOCUMENT_STATUS.AVAILABLE) &&
       rs.any (fun r2 => decide (r2.id = r.id ∧ r2.status = DOCUMENT_STATUS.AVAILABLE)))) &&
    okStoreB rs

/-- Store well-formedness: one row per `(id, vid)` key. -/
def keyNodupB (store : Store) : Bool :=
  nodupKeysB (store.map (fun r => (r.id, r.vid)))

/-- The result row of `getMostRecentResource`, projected to the fields the
coordinator uses (`resource.id`, `resource.resourceType`,
`resource.meta.versionId`). -/
structure FoundResource where
  resourceType : String
  id : String
  versionId : String
deriving DecidableEq, Inhabited

/-- Numeric value of a version id string (monotonic integer strings). -/
def vidNum (s : String) : Int := (parseIntJS s).getD 0

/-- Modelled from the spec: `DynamoDbHelper.getMostRecentResource` returns
the most recent `AVAILABLE` version of the given resourceType/id, and a
not-found condition (`none`, `ResourceNotFoundError`) when no `AVAILABLE`
version exists. -/
def getMostRecentResource (store : Store) (resourceType : String) (id : String) :
    Option FoundResource :=
  match store.filter (fun r =>
      decide (r.id = id ∧ r.resourceType = resourceType ∧ r.status = DOCUMENT_STATUS.AVAILABLE)) with
  | [] => none
  | r :: rs =>
    some { resourceType := resourceType, id := id,
           versionId := (rs.foldl (fun a b => if vidNum b.vid > vidNum a.vid then b else a) r).vid }

/-! ## Transaction coordinator (`dynamoDbBundleService.ts`) -/

/-- The outcome of `lockItems`, extended with the batch it submitted to
`transactWriteItems` (`none` when no batch call was made). -/
structure LockItemsResult where
  successfulLock : Bool
  errorType : Option BatchReadWriteErrorType := none
  errorMessage : Option String := none
  lockedItems : List ItemRequest
  submittedBatch : Option (List StoreRequest) := none
deriving DecidableEq, Inhabited

/-- `lockItems(requests)`.  The store stands in for the fan-out of
`getMostRecentResource` reads, and `batchOk` for the success of the lock
batch round-trip (its value is irrelevant on every path that submits no
batch). -/
def lockItems (requests : List BatchReadWriteRequest) (store : Store) (batchOk : Bool) :
    LockItemsResult :=
  let allNonCreateRequests := requests.filter (fun r => decide (r.operation ≠ TypeOperation.create))
  let itemsToLock : List ItemRequest := allNonCreateRequests.map (fun r =>
    { id := r.id, resourceType := r.resourceType, operation := r.operation })
  if itemsToLock.length > 25 then
    { successfulLock := false, errorType := some BatchReadWriteErrorType.SYSTEM_ERROR,
      errorMessage := some "Cannot lock more than 25 items", lockedItems := [] }
  else
    let itemResponses := itemsToLock.map (fun it => getMostRecentResource store it.resourceType it.id)
    let idItemsFailedToRead :=
      ((itemsToLock.zip itemResponses).filter (fun p => decide (p.2 = none))).map
        (fun p => p.1.resourceType ++ "/" ++ p.1.id)
    if idItemsFailedToRead.length > 0 then
      { successfulLock := false, errorType := some BatchReadWriteErrorType.USER_ERROR,
        errorMessage := some ("Failed to find resources: " ++ String.intercalate "," idItemsFailedToRead),
        lockedItems := [] }
    else
      let lockedItems : List ItemRequest :=
        (allNonCreateRequests.zip itemResponses).filterMap (fun p =>
          match p.2 with
          | none => none
          | some found =>
            some { id := found.id, vid := some found.versionId, resourceType := found.resourceType,
                   operation := p.1.operation,
                   isOriginalUpdateItem :=
                     if p.1.operation = TypeOperation.update then some true else none })
      let addLockRequests : List StoreRequest := itemResponses.filterMap (fun o =>
        o.map (fun f =>
          buildUpdateDocumentStatusParam (some DOCUMENT_STATUS.AVAILABLE) DOCUMENT_STATUS.LOCKED
            f.id f.versionId))
      if addLockRequests.length > 0 then
        if batchOk then
          { successfulLock := true, lockedItems := lockedItems,
            submittedBatch := some addLockRequests }
        else
          { successfulLock := false, errorType := some BatchReadWriteErrorType.SYSTEM_ERROR,
            errorMessage := some ("Failed to lock resources for transaction. Please try again after "
              ++ toString (LOCK_DURATION_IN_MS / 1000) ++ " seconds."),
            lockedItems := [], submittedBatch := some addLockRequests }
      else
        { successfulLock := true, lockedItems := [] }

/-- The destination status `unlockItems` computes for one lock record:
`DELETED` for delete-operation locks and original-update locks when not
rolling back, `AVAILABLE` otherwise. -/
def unlockNewStatus (lockedItem : ItemRequest) (rollBack : Bool) : DOCUMENT_STATUS :=
  if (lockedItem.operation = TypeOperation.delete ∨
      (lockedItem.operation = TypeOperation.update ∧ lockedItem.isOriginalUpdateItem = some true)) ∧
     rollBack = false then
    DOCUMENT_STATUS.DELETED
  else
    DOCUMENT_STATUS.AVAILABLE

/-- The unconditional status updates `unlockItems` builds, one per lock
(`buildUpdateDocumentStatusParam(null, newStatus, id, vid || '0')`). -/
def unlockUpdateRequests (lockedItems : List ItemRequest) (rollBack : Bool) : List StoreRequest :=
  lockedItems.map (fun li =>
    buildUpdateDocumentStatusParam none (unlockNewStatus li rollBack) li.id (jsOrStr li.vid "0"))

/-- Modelled from the spec: `chunkArray` from the interface package
partitions a list into consecutive chunks of at most `size` elements.
Structural recursion on a fuel argument (initialised to the list length,
sufficient whenever `size > 0`). -/
def chunkArrayFuel : Nat → List α → Nat → List (List α)
  | _, [], _ => []
  | 0, _ :: _, _ => []
  | fuel + 1, x :: xs, size => (x :: xs).take size :: chunkArrayFuel fuel ((x :: xs).drop size) size

/-- `chunkArray(l, size)`. -/
def chunkArray (l : List α) (size : Nat) : List (List α) :=
  chunkArrayFuel l.length l size

/-- The result of `unlockItems`. -/
structure UnlockResult where
  successfulUnlock : Bool
  locksFailedToRelease : List ItemRequest
deriving DecidableEq, Inhabited

/-- The sequential chunk loop of `unlockItems`: on the first failed
round-trip (index `i` with `chunkOk i = false`), every lock of that chunk
and of all later chunks is reported as failed to release. -/
def unlockGo (chunkOk : Nat → Bool) :
    List (List StoreRequest) → List (List ItemRequest) → Nat → UnlockResult
  | [], _, _ => ⟨true, []⟩
  | _ :: ps, lockedItemChunks, i =>
    if chunkOk i then unlockGo chunkOk ps lockedItemChunks.tail (i + 1)
    else ⟨false, lockedItemChunks.flatten⟩

/-- `unlockItems(lockedItems, rollBack)`, with `chunkOk i` the success of the
`i`-th chunk's `transactWriteItems` round-trip. -/
def unlockItems (lockedItems : List ItemRequest) (rollBack : Bool) (chunkOk : Nat → Bool) :
    UnlockResult :=
  if lockedItems.isEmpty then ⟨true, []⟩
  else
    unlockGo chunkOk (chunkArray (unlockUpdateRequests lockedItems rollBack) 25)
      (chunkArray lockedItems 25) 0

/-- `generateFullId(id, vid)`. -/
def generateFullId (id : String) (vid : String) : String := id ++ "_" ++ vid

/-- One step of building `fullIdToLockedItem`: a JS object assignment keeps
the first-insertion position of an existing key but replaces its value. -/
def upsertByKey (m : List (String × ItemRequest)) (k : String) (v : ItemRequest) :
    List (String × ItemRequest) :=
  if m.any (fun p => decide (p.1 = k)) then
    m.map (fun p => if p.1 = k then (k, v) else p)
  else m ++ [(k, v)]

/-- `removeLocksFromArray(originalLocks, locksToRemove)`: index the locks by
`generateFullId(id, vid || '0')`, delete every full id named by
`locksToRemove`, return the remaining values in key order. -/
def removeLocksFromArray (originalLocks : List ItemRequest) (locksToRemove : List LockRemoval) :
    List ItemRequest :=
  let fullIdToLockedItem := originalLocks.foldl
    (fun m li => upsertByKey m (generateFullId li.id (jsOrStr li.vid "0")) li) []
  let keysToRemove := locksToRemove.map (fun r => generateFullId r.id r.vid)
  (fullIdToLockedItem.filter (fun p => decide (¬ p.1 ∈ keysToRemove))).map (fun p => p.2)

/-- The `idToVersionId` record `stageItems` builds from the acquired locks:
later assignments win, `vid || '0'` defaulting. -/
def buildVidMap (locks : List ItemRequest) : String → Option String := fun id =>
  match (locks.filter (fun li => decide (li.id = id))).getLast? with
  | some li => some (jsOrStr li.vid "0")
  | none => none

/-- The single write batch `stageItems` submits:
`[...deleteRequests, ...createRequests, ...updateRequests]`. -/
def stagedWriteBatch (requests : List BatchReadWriteRequest) (idToVersionId : String → Option String)
    (freshIds : List String) (now : String) : List StoreRequest :=
  let so := generateStagingRequests requests idToVersionId freshIds now
  so.deleteRequests ++ so.createRequests ++ so.updateRequests

/-- The point-get result row for one staged read request: DynamoDB returns a
response slot per get, with `Item` absent (`none`) when the key has no row.
The payload of a present item is irrelevant to the properties proved here
and is modelled by the empty resource. -/
def readRowResult (store : Store) : StoreRequest → Option Resource
  | StoreRequest.get id vid =>
    if store.any (fun r => decide (r.id = id ∧ r.vid = vid)) then some {} else none
  | _ => none

/-! ## One full transaction run (for the status-transition invariant)

`runTransaction` mirrors `transaction()` and returns the list of store
snapshots taken immediately after every attempted `transactWriteItems`
round-trip — the intermediate points of the protocol (each batch itself is
atomic).  `t1`/`t2` are the two elapsed-time checks, `oracle n` the success
of the `n`-th store round-trip. -/

/-- Chunked unlock against the store: each chunk is one round-trip; the loop
stops at the first failure (matching `unlockItems`). -/
def unlockApplyChunks (oracle : Nat → Bool) :
    List (List StoreRequest) → Store → Nat → List Store
  | [], _, _ => []
  | c :: cs, store, n =>
    match attemptBatch (oracle n) store c with
    | some store2 => store2 :: unlockApplyChunks oracle cs store2 (n + 1)
    | none => [store]

/-- The store side of `unlockItems(locks, rollBack)`. -/
def runUnlock (store : Store) (locks : List ItemRequest) (rollBack : Bool)
    (oracle : Nat → Bool) (n : Nat) : List Store :=
  if locks.isEmpty then []
  else unlockApplyChunks oracle (chunkArray (unlockUpdateRequests locks rollBack) 25) store n

/-- The failure resolution of phase 3: `rollbackItems` (rollback deletes are
submitted even when empty; a failed round-trip leaves the store unchanged and
is swallowed) followed by `unlockItems(remaining, rollBack := true)`. -/
def runResolveFailure (store : Store) (resps : List BatchReadWriteResponse)
    (locks : List ItemRequest) (oracle : Nat → Bool) (n : Nat) : List Store :=
  let ro := generateRollbackRequests resps
  let newLocked := removeLocksFromArray locks ro.itemsToRemoveFromLock
  match attemptBatch (oracle n) store ro.transactionRequests with
  | some store2 => store2 :: runUnlock store2 newLocked true oracle (n + 1)
  | none => store :: runUnlock store newLocked true oracle (n + 1)

/-- Phase 3 entry: the second elapsed-time check, then commit unlock
(`rollBack := false`) or failure resolution. -/
def runResolve (store : Store) (resps : List BatchReadWriteResponse)
    (locks : List ItemRequest) (t2 : Bool) (oracle : Nat → Bool) (n : Nat) : List Store :=
  if t2 then runResolveFailure store resps locks oracle n
  else runUnlock store locks false oracle n

/-- The read sub-phase of `stageItems`: one `transactGetItems` round-trip
(when there are read requests) whose failure, or a failed result population,
fails staging while keeping the already-computed envelopes. -/
def runRead (store : Store) (so : StagingOutput) (locks2 : List ItemRequest)
    (resps : List BatchReadWriteResponse) (t2 : Bool) (oracle : Nat → Bool) (n : Nat) :
    List Store :=
  if so.readRequests.isEmpty then runResolve store resps locks2 t2 oracle n
  else
    if oracle n then
      match populateBundleEntryResponseWithReadResult resps
          (so.readRequests.map (readRowResult store)) with
      | Except.ok resps2 => runResolve store resps2 locks2 t2 oracle (n + 1)
      | Except.error _ => runResolveFailure store resps locks2 oracle (n + 1)
    else runResolveFailure store resps locks2 oracle (n + 1)

/-- Phase 2: `stageItems(requests, lockedItems)` against the store.  A failed
write batch fails staging with no new locks and no envelopes; a successful
one (or an empty one) appends the staging locks and envelopes, then runs the
read sub-phase. -/
def runStage (store : Store) (requests : List BatchReadWriteRequest)
    (locks : List ItemRequest) (freshIds : List String) (now : String) (t2 : Bool)
    (oracle : Nat → Bool) (n : Nat) : List Store :=
  let so := generateStagingRequests requests (buildVidMap locks) freshIds now
  let editRequests := so.deleteRequests ++ so.createRequests ++ so.updateRequests
  if editRequests.isEmpty then
    runRead store so (locks ++ so.newLocks) so.newStagingResponses t2 oracle n
  else
    match attemptBatch (oracle n) store editRequests with
    | some store2 =>
      store2 :: runRead store2 so (locks ++ so.newLocks) so.newStagingResponses t2 oracle (n + 1)
    | none => store :: runResolveFailure store [] locks oracle (n + 1)

/-- One full `transaction(request)` run: empty input returns immediately;
otherwise lock, elapsed-time check, stage, resolve. -/
def runTransaction (store : Store) (requests : List BatchReadWriteRequest)
    (freshIds : List String) (now : String) (t1 t2 : Bool) (oracle : Nat → Bool) : List Store :=
  if requests.isEmpty then []
  else
    let pre := lockItems requests store true
    match pre.submittedBatch with
    | some b1 =>
      match attemptBatch (oracle 0) store b1 with
      | some store1 =>
        if t1 then store1 :: runUnlock store1 pre.lockedItems true oracle 1
        else store1 :: runStage store1 requests pre.lockedItems freshIds now t2 oracle 1
      | none => [store]
    | none =>
      if pre.successfulLock then
        if t1 then runUnlock store pre.lockedItems true oracle 0
        else runStage store requests pre.lockedItems freshIds now t2 oracle 0
      else []

/-- The ids written by the create operations of a request list (caller-
supplied or minted), consuming one minted id per create operation exactly as
`generateStagingRequests` does. -/
def createIds : List BatchReadWriteRequest → List String → List String
  | [], _ => []
  | r :: rest, freshIds =>
    match r.operation with
    | TypeOperation.create => assignedCreateId r freshIds :: createIds rest freshIds.tail
    | _ => createIds rest freshIds

/-! ## Statement-side definitions (written from the spec claims, to be
compared with the embedded code) -/

/-- The destination status the unlock claim describes: every lock reverts to
`AVAILABLE` on rollback; otherwise delete-operation locks and
original-update locks go to `DELETED` and all others to `AVAILABLE`. -/
def claimedUnlockStatus (lockedItem : ItemRequest) (rollBack : Bool) : DOCUMENT_STATUS :=
  if rollBack then DOCUMENT_STATUS.AVAILABLE
  else if lockedItem.operation = TypeOperation.delete ∨
         (lockedItem.operation = TypeOperation.update ∧
          lockedItem.isOriginalUpdateItem = some true) then
    DOCUMENT_STATUS.DELETED
  else DOCUMENT_STATUS.AVAILABLE

/-- The delete-status-update staged for one delete operation. -/
def deleteStagingRequest (m : String → Option String) (r : BatchReadWriteRequest) : StoreRequest :=
  buildUpdateDocumentStatusParam (some DOCUMENT_STATUS.LOCKED) DOCUMENT_STATUS.PENDING_DELETE
    r.id (vidLookup m r.id)

/-- The put requests staged for a list of create operations, consuming one
minted id per operation. -/
def createStagingRequests : List BatchReadWriteRequest → List String → String → List StoreRequest
  | [], _, _ => []
  | r :: rest, freshIds, now =>
    StoreRequest.put
        (prepItemForDdbInsert r.resource (assignedCreateId r freshIds) "1"
          DOCUMENT_STATUS.PENDING now)
      :: createStagingRequests rest freshIds.tail now

/-- The put request staged for one update operation. -/
def updateStagingRequest (m : String → Option String) (now : String)
    (r : BatchReadWriteRequest) : StoreRequest :=
  StoreRequest.put
    (prepItemForDdbInsert r.resource r.resource.id (updateNewVid m r.resource.id)
      DOCUMENT_STATUS.PENDING now)

/-- Whether an operation is one of the four the staging helper handles. -/
def stageableOp : TypeOperation → Bool
  | TypeOperation.create => true
  | TypeOperation.read => true
  | TypeOperation.update => true
  | TypeOperation.delete => true
  | _ => false

/-- Number of read envelopes in a response list. -/
def readCount (resps : List BatchReadWriteResponse) : Nat :=
  resps.countP (fun r => decide (r.operation = TypeOperation.read))

/-- The `resourceType/id` rendering of every non-create operation whose id
has no `AVAILABLE` version in the store, in request order. -/
def missingIds (requests : List BatchReadWriteRequest) (store : Store) : List String :=
  (((requests.filter (fun r => decide (r.operation ≠ TypeOperation.create))).filter
      (fun r => decide (getMostRecentResource store r.resourceType r.id = none))).map
    (fun r => r.resourceType ++ "/" ++ r.id))

/-- Concrete envelopes used by witness theorems: two read envelopes around a
create envelope. -/
def c4DemoResps : List BatchReadWriteResponse :=
  [{ operation := TypeOperation.read, id := "a", vid := "1", resourceType := "Patient" },
   { operation := TypeOperation.create, id := "b", vid := "1", resourceType := "Patient" },
   { operation := TypeOperation.read, id := "c", vid := "2", resourceType := "Patient" }]

/-- Concrete read results for the witness theorems (one per read envelope). -/
def c4DemoItems : List Resource :=
  [{ resourceType := "Patient", id := "a",
     meta := some { versionId := "1", lastUpdated := "T1" } },
   { resourceType := "Patient", id := "c",
     meta := some { versionId := "2", lastUpdated := "T2" } }]

/-- A too-short read result list for the witness theorems. -/
def c4DemoShort : List Resource :=
  [{ resourceType := "Patient", id := "a",
     meta := some { versionId := "1", lastUpdated := "T1" } }]

/-- Concrete update request used by witness theorems. -/
def c6DemoReq : BatchReadWriteRequest :=
  { operation := TypeOperation.update, resourceType := "Patient", id := "X",
    resource := { resourceType := "Patient", id := "X" } }

/-- Concrete store holding only a `LOCKED` version of id `X`. -/
def c6DemoStore : Store :=
  [{ id := "X", vid := "3", resourceType := "Patient", status := DOCUMENT_STATUS.LOCKED }]

/-- Twenty-six identical read locks (two unlock chunks) for witnesses. -/
def c7DemoLocks : List ItemRequest :=
  List.replicate 26
    { id := "X", vid := some "1", resourceType := "Patient", operation := TypeOperation.read }

/-- Whether a store action can put a row into `AVAILABLE` status. -/
def requestSetsAvail : StoreRequest → Bool
  | StoreRequest.updateStatus _ DOCUMENT_STATUS.AVAILABLE _ _ => true
  | StoreRequest.put item => decide (item.documentStatus = DOCUMENT_STATUS.AVAILABLE)
  | _ => false

/-- Whether an action writes (gets do not). -/
def isWriteAction : StoreRequest → Bool
  | StoreRequest.get _ _ => false
  | _ => true

/-- The core invariant: at most one `AVAILABLE` version per logical id. -/
def InvStore (store : Store) : Prop := ∀ id, availCount store id ≤ 1

/-- How many locks of a lock set would be released to `AVAILABLE` for the
given id. -/
def availSetCount (locks : List ItemRequest) (rollBack : Bool) (id : String) : Nat :=
  locks.countP (fun li =>
    decide (li.id = id ∧ unlockNewStatus li rollBack = DOCUMENT_STATUS.AVAILABLE))

/-- The full id under which `removeLocksFromArray` indexes a lock. -/
def lockFullId (li : ItemRequest) : String := generateFullId li.id (jsOrStr li.vid "0")

/-- Concrete store for the C8 counterexample: one `AVAILABLE` version `X@2`. -/
def c8CxStore : Store :=
  [{ id := "X", vid := "2", resourceType := "Patient", status := DOCUMENT_STATUS.AVAILABLE }]

/-- Concrete transaction for the C8 counterexample: a single create that
reuses the existing id `X`. -/
def c8CxReqs : List BatchReadWriteRequest :=
  [{ operation := TypeOperation.create, resourceType := "Patient", id := "X",
     resource := { resourceType := "Patient", id := "X" } }]


/-! ## Statement-side abbreviations for the lock phase (C8) -/

/-- The non-create operations of a request list, in order (`lockItems` locks
exactly these). -/
def nonCreates (requests : List BatchReadWriteRequest) : List BatchReadWriteRequest :=
  requests.filter (fun r => decide (r.operation ≠ TypeOperation.create))

/-- The lock records `lockItems` builds on its success path (one per found
non-create operation). -/
def lockRecordsOf (store : Store) (requests : List BatchReadWriteRequest) : List ItemRequest :=
  ((nonCreates requests).zip ((nonCreates requests).map (fun r =>
      getMostRecentResource store r.resourceType r.id))).filterMap (fun p =>
    match p.2 with
    | none => none
    | some found =>
      some { id := found.id, vid := some found.versionId, resourceType := found.resourceType,
             operation := p.1.operation,
             isOriginalUpdateItem :=
               if p.1.operation = TypeOperation.update then some true else none })

/-- The conditional `AVAILABLE → LOCKED` batch `lockItems` submits on its
success path. -/
def lockBatchOf (store : Store) (requests : List BatchReadWriteRequest) : List StoreRequest :=
  ((nonCreates requests).map (fun r => getMostRecentResource store r.resourceType r.id)).filterMap
    (fun o => o.map (fun f =>
      buildUpdateDocumentStatusParam (some DOCUMENT_STATUS.AVAILABLE) DOCUMENT_STATUS.LOCKED
        f.id f.versionId))

/-- Concrete transaction for the C8 witness: one create with a fresh id over
the counterexample store. -/
def c8WitReqs : List BatchReadWriteRequest :=
  [{ operation := TypeOperation.create, resourceType := "Patient", id := "Y",
     resource := { resourceType := "Patient", id := "Y" } }]

/-! # Theorems -/

/-! ## General utility lemmas -/

theorem toDigitsCore_length_le (b : Nat) : ∀ (f n : Nat) (ds : List Char),
    ds.length ≤ (Nat.toDigitsCore b f n ds).length := by
  intro f
  induction f with
  | zero => intro n ds; simp [Nat.toDigitsCore]
  | succ f ih =>
    intro n ds
    simp only [Nat.toDigitsCore]
    split
    · simp
    · exact le_trans (by simp) (ih (n / b) (Nat.digitChar (n % b) :: ds))

theorem toDigits_ne_nil (b n : Nat) : Nat.toDigits b n ≠ [] := by
  unfold Nat.toDigits
  simp only [Nat.toDigitsCore]
  split
  · simp
  · intro h
    have := toDigitsCore_length_le b n (n / b) [Nat.digitChar (n % b)]
    rw [h] at this
    simp at this

theorem natRepr_ne_empty (n : Nat) : Nat.repr n ≠ "" := by
  unfold Nat.repr
  intro h
  have h2 : (Nat.toDigits 10 n).asString.data = ("" : String).data := by rw [h]
  simp [List.asString] at h2
  exact toDigits_ne_nil 10 n h2

theorem toString_int_ne_empty (i : Int) : toString i ≠ "" := by
  show Int.repr i ≠ ""
  unfold Int.repr
  match i with
  | Int.ofNat m => exact natRepr_ne_empty m
  | Int.negSucc m =>
    intro h
    have h2 := congrArg String.data h
    simp [String.data_append] at h2

theorem updateNewVid_ne_empty (m : String → Option String) (id : String) :
    updateNewVid m id ≠ "" := by
  unfold updateNewVid
  exact toString_int_ne_empty _

/-! ## C1: unlock transition targets -/

theorem unlockNewStatus_eq_claimed (li : ItemRequest) (rollBack : Bool) :
    unlockNewStatus li rollBack = claimedUnlockStatus li rollBack := by
  unfold unlockNewStatus claimedUnlockStatus
  cases rollBack with
  | true => simp
  | false =>
    by_cases h : li.operation = TypeOperation.delete ∨
        (li.operation = TypeOperation.update ∧ li.isOriginalUpdateItem = some true) <;>
      simp [h]

/-- C1: for every lock set held at the end of a transaction, the unlock phase
with `rollback = false` targets status `DELETED` for each lock whose
operation is delete, or whose operation is update with
`isOriginalUpdateItem` set, and targets `AVAILABLE` for every other lock;
with `rollback = true` it targets `AVAILABLE` for every lock.  (The unlock
batch consists of exactly one unconditional status update per lock, keyed by
the lock's id and version.) -/
theorem unlock_releases_locks_to_claimed_status (lockedItems : List ItemRequest) (rollBack : Bool) :
    unlockUpdateRequests lockedItems rollBack = lockedItems.map (fun li =>
      StoreRequest.updateStatus none (claimedUnlockStatus li rollBack) li.id (jsOrStr li.vid "0")) := by
  unfold unlockUpdateRequests buildUpdateDocumentStatusParam
  exact List.map_congr_left (fun li _ => by rw [unlockNewStatus_eq_claimed])

/-! ## C3: rollback request generation -/

theorem generateRollbackRequests_characterization (resps : List BatchReadWriteResponse) :
    (generateRollbackRequests resps).transactionRequests
      = (resps.filter (fun r => decide (r.operation = TypeOperation.create ∨
            r.operation = TypeOperation.update))).map
          (fun r => StoreRequest.deleteRow r.id r.vid)
  ∧ (generateRollbackRequests resps).itemsToRemoveFromLock
      = (resps.filter (fun r => decide (r.operation = TypeOperation.create ∨
            r.operation = TypeOperation.update))).map
          (fun r => ({ id := r.id, vid := r.vid, resourceType := r.resourceType } : LockRemoval)) := by
  induction resps with
  | nil => exact ⟨rfl, rfl⟩
  | cons r rest ih =>
    obtain ⟨ih1, ih2⟩ := ih
    cases hop : r.operation <;>
      simp [generateRollbackRequests, hop, ih1, ih2,
        generateDeleteLatestRecordAndItemToRemoveFromLock, buildDeleteParam]

/-- C3: `generateRollbackRequests` emits exactly one unconditional delete
request for the `(id, versionId)` of each create or update envelope, and
exactly one lock-removal entry for that same `(id, versionId)`; read and
delete envelopes contribute neither. -/
theorem rollback_exactly_one_delete_per_create_update (resps : List BatchReadWriteResponse) :
    (generateRollbackRequests resps).transactionRequests
      = (resps.filter (fun r => decide (r.operation = TypeOperation.create ∨
            r.operation = TypeOperation.update))).map
          (fun r => StoreRequest.deleteRow r.id r.vid)
  ∧ (generateRollbackRequests resps).itemsToRemoveFromLock
      = (resps.filter (fun r => decide (r.operation = TypeOperation.create ∨
            r.operation = TypeOperation.update))).map
          (fun r => ({ id := r.id, vid := r.vid, resourceType := r.resourceType } : LockRemoval)) :=
  generateRollbackRequests_characterization resps

/-! ## C10: unknown operations are silently skipped -/

/-- C10: an operation that is not create, update, delete or read contributes
no store request, no response envelope and no lock record: staging a request
list equals staging its restriction to the four handled operations, and the
number of response envelopes equals the number of handled operations (hence
is strictly smaller than the input length whenever an unhandled operation is
present). -/
theorem unknown_operations_are_skipped (requests : List BatchReadWriteRequest)
    (m : String → Option String) (freshIds : List String) (now : String) :
    generateStagingRequests requests m freshIds now
      = generateStagingRequests (requests.filter (fun r => stageableOp r.operation)) m freshIds now
  ∧ (generateStagingRequests requests m freshIds now).newStagingResponses.length
      = (requests.filter (fun r => stageableOp r.operation)).length := by
  induction requests generalizing freshIds with
  | nil => exact ⟨rfl, rfl⟩
  | cons r rest ih =>
    cases hop : r.operation <;>
      refine ⟨by simp [generateStagingRequests, hop, List.filter_cons, stageableOp,
          (ih freshIds).1, (ih freshIds.tail).1], ?_⟩ <;>
        simp [generateStagingRequests, hop, List.filter_cons, stageableOp,
          (ih freshIds).2, (ih freshIds.tail).2]

/-! ## C9: update with an unknown current version stages at version "1" -/

/-- C9: for an update operation whose id is absent from the caller-supplied
version map, or whose mapped versionId has no integer parse, staging does not
fail: it stages the new item at versionId `"1"` (put request, lock record and
response envelope all carry version `"1"`). -/
theorem update_with_unknown_version_stages_at_one (r : BatchReadWriteRequest)
    (m : String → Option String) (freshIds : List String) (now : String)
    (hop : r.operation = TypeOperation.update)
    (hmiss : m r.resource.id = none ∨ parseIntJS (vidLookup m r.resource.id) = none) :
    generateStagingRequests [r] m freshIds now =
      { deleteRequests := [], createRequests := [],
        updateRequests :=
          [StoreRequest.put (prepItemForDdbInsert r.resource r.resource.id "1"
            DOCUMENT_STATUS.PENDING now)],
        readRequests := [],
        newLocks := [{ id := r.resource.id, vid := some "1", resourceType := r.resourceType,
                       operation := TypeOperation.update, isOriginalUpdateItem := some false }],
        newStagingResponses := [{ id := r.resource.id, vid := "1",
                                  operation := TypeOperation.update, lastModified := now,
                                  resourceType := r.resourceType, resource := {} }] } := by
  have hv : updateNewVid m r.resource.id = "1" := by
    unfold updateNewVid
    rcases hmiss with h | h
    · rw [show vidLookup m r.resource.id = "undefined" by unfold vidLookup; rw [h]; rfl]
      decide
    · rw [h]; decide
  simp [generateStagingRequests, hop, hv, addStagingResponseAndItemsLocked, prepItemForDdbInsert]

/-- Witness for C9 at a concrete update request and an empty version map. -/
theorem update_with_unknown_version_stages_at_one_witness :
    ({ operation := TypeOperation.update, resourceType := "Patient",
       resource := { resourceType := "Patient", id := "X" } } : BatchReadWriteRequest).operation
        = TypeOperation.update
  ∧ generateStagingRequests
      [{ operation := TypeOperation.update, resourceType := "Patient",
         resource := { resourceType := "Patient", id := "X" } }] (fun _ => none) [] "T0" =
      { deleteRequests := [], createRequests := [],
        updateRequests :=
          [StoreRequest.put (prepItemForDdbInsert
            ({ resourceType := "Patient", id := "X" } : Resource) "X" "1"
            DOCUMENT_STATUS.PENDING "T0")],
        readRequests := [],
        newLocks := [{ id := "X", vid := some "1", resourceType := "Patient",
                       operation := TypeOperation.update, isOriginalUpdateItem := some false }],
        newStagingResponses := [{ id := "X", vid := "1",
                                  operation := TypeOperation.update, lastModified := "T0",
                                  resourceType := "Patient", resource := {} }] } :=
  ⟨rfl, by
    have h := update_with_unknown_version_stages_at_one
      { operation := TypeOperation.update, resourceType := "Patient",
        resource := { resourceType := "Patient", id := "X" } }
      (fun _ => none) [] "T0" rfl (Or.inl rfl)
    simpa using h⟩

/-! ## C2: staged write batch ordering -/

theorem gsr_deleteRequests_eq (requests : List BatchReadWriteRequest)
    (m : String → Option String) (freshIds : List String) (now : String) :
    (generateStagingRequests requests m freshIds now).deleteRequests
      = (requests.filter (fun r => decide (r.operation = TypeOperation.delete))).map
          (deleteStagingRequest m) := by
  induction requests generalizing freshIds with
  | nil => rfl
  | cons r rest ih =>
    cases hop : r.operation <;>
      simp [generateStagingRequests, hop, List.filter_cons, ih, deleteStagingRequest]

theorem gsr_createRequests_eq (requests : List BatchReadWriteRequest)
    (m : String → Option String) (freshIds : List String) (now : String) :
    (generateStagingRequests requests m freshIds now).createRequests
      = createStagingRequests
          (requests.filter (fun r => decide (r.operation = TypeOperation.create))) freshIds now := by
  induction requests generalizing freshIds with
  | nil => rfl
  | cons r rest ih =>
    cases hop : r.operation <;>
      simp [generateStagingRequests, hop, List.filter_cons, ih, createStagingRequests]

theorem gsr_updateRequests_eq (requests : List BatchReadWriteRequest)
    (m : String → Option String) (freshIds : List String) (now : String) :
    (generateStagingRequests requests m freshIds now).updateRequests
      = (requests.filter (fun r => decide (r.operation = TypeOperation.update))).map
          (updateStagingRequest m now) := by
  induction requests generalizing freshIds with
  | nil => rfl
  | cons r rest ih =>
    cases hop : r.operation <;>
      simp [generateStagingRequests, hop, List.filter_cons, ih, updateStagingRequest]

/-- C2: the staged write batch lists all delete-status-update requests first,
then all create put requests, then all update put requests, regardless of
the order of operations in the input list; within each group the input order
is preserved (each group is the image of the input subsequence of that
operation kind, in order). -/
theorem staged_write_batch_orders_deletes_creates_updates
    (requests : List BatchReadWriteRequest) (m : String → Option String)
    (freshIds : List String) (now : String) :
    stagedWriteBatch requests m freshIds now
      = (requests.filter (fun r => decide (r.operation = TypeOperation.delete))).map
          (deleteStagingRequest m)
        ++ createStagingRequests
             (requests.filter (fun r => decide (r.operation = TypeOperation.create))) freshIds now
        ++ (requests.filter (fun r => decide (r.operation = TypeOperation.update))).map
             (updateStagingRequest m now) := by
  show (generateStagingRequests requests m freshIds now).deleteRequests
      ++ (generateStagingRequests requests m freshIds now).createRequests
      ++ (generateStagingRequests requests m freshIds now).updateRequests = _
  rw [gsr_deleteRequests_eq, gsr_createRequests_eq, gsr_updateRequests_eq]


/-! ## C4: read-result population -/

theorem populate_ok_of_enough_results (resps : List BatchReadWriteResponse) :
    ∀ (items : List Resource) (extra : List (Option Resource)),
    readCount resps ≤ items.length →
    ∃ out, populateBundleEntryResponseWithReadResult resps (items.map some ++ extra) = Except.ok out
      ∧ out.length = resps.length
      ∧ ∀ i, i < resps.length →
          ((resps.getD i default).operation ≠ TypeOperation.read →
            out.getD i default = resps.getD i default)
          ∧ ((resps.getD i default).operation = TypeOperation.read →
            out.getD i default =
              populateOneReadResult (resps.getD i default)
                (items.getD (readCount (resps.take i)) default)) := by
  induction resps with
  | nil =>
    intro items extra _
    exact ⟨[], rfl, rfl, fun i hi => absurd hi (by simp)⟩
  | cons r rest ih =>
    intro items extra h
    by_cases hop : r.operation = TypeOperation.read
    · have hc : readCount (r :: rest) = readCount rest + 1 := by
        simp [readCount, List.countP_cons, hop]
      match items with
      | [] => rw [hc] at h; simp at h
      | it :: its =>
        have h2 : readCount rest ≤ its.length := by
          rw [hc] at h; simpa using h
        obtain ⟨tail, htail, hlen, hidx⟩ := ih its extra h2
        refine ⟨populateOneReadResult r it :: tail, ?_, by simpa using hlen, ?_⟩
        · simp only [populateBundleEntryResponseWithReadResult, hop, if_pos, List.map_cons,
            List.cons_append, htail]
        · intro i hi
          match i with
          | 0 =>
            refine ⟨fun hne => absurd hop hne, fun _ => ?_⟩
            simp [readCount]
          | i + 1 =>
            have hi2 : i < rest.length := by simpa using hi
            obtain ⟨h1, h2⟩ := hidx i hi2
            refine ⟨by simpa using h1, fun hr => ?_⟩
            have := h2 (by simpa using hr)
            simpa [List.take_succ_cons, readCount, List.countP_cons, hop] using this
    · have hc : readCount (r :: rest) = readCount rest := by
        simp [readCount, List.countP_cons, hop]
      obtain ⟨tail, htail, hlen, hidx⟩ := ih items extra (hc ▸ h)
      refine ⟨r :: tail, ?_, by simpa using hlen, ?_⟩
      · simp [populateBundleEntryResponseWithReadResult, hop, htail]
      · intro i hi
        match i with
        | 0 => exact ⟨fun _ => rfl, fun hr => absurd hr hop⟩
        | i + 1 =>
          have hi2 : i < rest.length := by simpa using hi
          obtain ⟨h1, h2⟩ := hidx i hi2
          refine ⟨by simpa using h1, fun hr => ?_⟩
          have := h2 (by simpa using hr)
          simpa [List.take_succ_cons, readCount, List.countP_cons, hop] using this

theorem populate_error_of_short_results (resps : List BatchReadWriteResponse) :
    ∀ items : List Resource, items.length < readCount resps →
    populateBundleEntryResponseWithReadResult resps (items.map some) =
      Except.error "Failed to fulfill all READ requests" := by
  induction resps with
  | nil => intro items h; simp [readCount] at h
  | cons r rest ih =>
    intro items h
    by_cases hop : r.operation = TypeOperation.read
    · match items with
      | [] => simp [populateBundleEntryResponseWithReadResult, hop]
      | it :: its =>
        have h2 : its.length < readCount rest := by
          simp [readCount, List.countP_cons, hop] at h ⊢
          omega
        simp [populateBundleEntryResponseWithReadResult, hop, ih its h2]
    · have h2 : items.length < readCount rest := by
        simpa [readCount, List.countP_cons, hop] using h
      simp [populateBundleEntryResponseWithReadResult, hop, ih items h2]

/-- C4: walking the envelope list in order, the k-th read envelope receives
the k-th returned item — its resource and lastModified populated from that
item — while every non-read envelope is left unchanged; and when the result
list is too short for the read envelopes, the function raises the fatal
incomplete-read error instead of returning. -/
theorem read_results_assigned_in_order_or_fatal (resps : List BatchReadWriteResponse)
    (items : List Resource) (extra : List (Option Resource)) (short : List Resource) :
    (readCount resps ≤ items.length →
      ∃ out, populateBundleEntryResponseWithReadResult resps (items.map some ++ extra) = Except.ok out
        ∧ out.length = resps.length
        ∧ ∀ i, i < resps.length →
            ((resps.getD i default).operation ≠ TypeOperation.read →
              out.getD i default = resps.getD i default)
            ∧ ((resps.getD i default).operation = TypeOperation.read →
              out.getD i default =
                populateOneReadResult (resps.getD i default)
                  (items.getD (readCount (resps.take i)) default)))
  ∧ (short.length < readCount resps →
      populateBundleEntryResponseWithReadResult resps (short.map some) =
        Except.error "Failed to fulfill all READ requests") :=
  ⟨populate_ok_of_enough_results resps items extra, populate_error_of_short_results resps short⟩

/-- Witness for C4 at concrete envelopes and results. -/
theorem read_results_assigned_in_order_or_fatal_witness :
    (readCount c4DemoResps ≤ c4DemoItems.length)
  ∧ (∃ out, populateBundleEntryResponseWithReadResult c4DemoResps
        (c4DemoItems.map some ++ []) = Except.ok out
      ∧ out.length = c4DemoResps.length
      ∧ ∀ i, i < c4DemoResps.length →
          ((c4DemoResps.getD i default).operation ≠ TypeOperation.read →
            out.getD i default = c4DemoResps.getD i default)
          ∧ ((c4DemoResps.getD i default).operation = TypeOperation.read →
            out.getD i default =
              populateOneReadResult (c4DemoResps.getD i default)
                (c4DemoItems.getD (readCount (c4DemoResps.take i)) default)))
  ∧ (c4DemoShort.length < readCount c4DemoResps)
  ∧ populateBundleEntryResponseWithReadResult c4DemoResps (c4DemoShort.map some) =
      Except.error "Failed to fulfill all READ requests" :=
  ⟨by decide,
   (read_results_assigned_in_order_or_fatal c4DemoResps c4DemoItems [] c4DemoShort).1 (by decide),
   by decide,
   (read_results_assigned_in_order_or_fatal c4DemoResps c4DemoItems [] c4DemoShort).2 (by decide)⟩

/-! ## C5 / C6: lock-phase failure behavior -/

/-- The not-found list computed inside `lockItems` equals `missingIds`. -/
theorem lockItems_missing_list (requests : List BatchReadWriteRequest) (store : Store) :
    (((requests.filter (fun r => decide (r.operation ≠ TypeOperation.create))).map (fun r =>
        ({ id := r.id, resourceType := r.resourceType, operation := r.operation } : ItemRequest))).zip
      (((requests.filter (fun r => decide (r.operation ≠ TypeOperation.create))).map (fun r =>
        ({ id := r.id, resourceType := r.resourceType, operation := r.operation } : ItemRequest))).map
        (fun it => getMostRecentResource store it.resourceType it.id))
      |>.filter (fun p => decide (p.2 = none))
      |>.map (fun p => p.1.resourceType ++ "/" ++ p.1.id))
    = missingIds requests store := by
  unfold missingIds
  generalize requests.filter (fun r => decide (r.operation ≠ TypeOperation.create)) = nc
  induction nc with
  | nil => rfl
  | cons r rest ih =>
    simp only [List.map_map] at ih ⊢
    by_cases hg : getMostRecentResource store r.resourceType r.id = none <;>
      simp [List.filter_cons, hg, Function.comp_def, ih] <;>
      simp [Function.comp_def] at ih <;> exact ih

theorem mem_missingIds (requests : List BatchReadWriteRequest) (store : Store)
    (r : BatchReadWriteRequest) (hr : r ∈ requests) (hop : r.operation ≠ TypeOperation.create)
    (hg : getMostRecentResource store r.resourceType r.id = none) :
    (r.resourceType ++ "/" ++ r.id) ∈ missingIds requests store := by
  unfold missingIds
  exact List.mem_map_of_mem _
    (List.mem_filter.mpr ⟨List.mem_filter.mpr ⟨hr, by simp [hop]⟩, by simp [hg]⟩)

/-- Helper: with at most 25 non-create operations and at least one of them
not found, `lockItems` returns the not-found user error with an empty lock
set and no submitted batch. -/
theorem lockItems_notFound_outcome (requests : List BatchReadWriteRequest) (store : Store)
    (batchOk : Bool)
    (hcount : (requests.filter (fun r => decide (r.operation ≠ TypeOperation.create))).length ≤ 25)
    (hmiss : ∃ r ∈ requests, r.operation ≠ TypeOperation.create ∧
        getMostRecentResource store r.resourceType r.id = none) :
    lockItems requests store batchOk =
      { successfulLock := false, errorType := some BatchReadWriteErrorType.USER_ERROR,
        errorMessage := some ("Failed to find resources: "
          ++ String.intercalate "," (missingIds requests store)),
        lockedItems := [], submittedBatch := none } := by
  have hne : missingIds requests store ≠ [] := by
    obtain ⟨r, hr, hop, hg⟩ := hmiss
    exact List.ne_nil_of_mem (mem_missingIds requests store r hr hop hg)
  unfold lockItems
  rw [if_neg (by simpa using Nat.not_lt.mpr hcount)]
  dsimp only
  rw [lockItems_missing_list requests store]
  rw [if_pos (by exact List.length_pos.mpr hne)]

/-- C5 (amended): provided the number of non-create operations does not
exceed the 25-item batch limit, if any non-create operation's id has no
`AVAILABLE` version in the store, the lock phase aborts with a user-facing
error (`USER_ERROR`) whose message lists every missing `resourceType/id`,
the returned lock set is empty, and no lock batch is submitted. -/
theorem lock_phase_not_found_aborts_with_user_error (requests : List BatchReadWriteRequest)
    (store : Store) (batchOk : Bool)
    (hcount : (requests.filter (fun r => decide (r.operation ≠ TypeOperation.create))).length ≤ 25)
    (hmiss : ∃ r ∈ requests, r.operation ≠ TypeOperation.create ∧
        getMostRecentResource store r.resourceType r.id = none) :
    lockItems requests store batchOk =
      { successfulLock := false, errorType := some BatchReadWriteErrorType.USER_ERROR,
        errorMessage := some ("Failed to find resources: "
          ++ String.intercalate "," (missingIds requests store)),
        lockedItems := [], submittedBatch := none }
    ∧ ∀ r ∈ requests, r.operation ≠ TypeOperation.create →
        getMostRecentResource store r.resourceType r.id = none →
        (r.resourceType ++ "/" ++ r.id) ∈ missingIds requests store :=
  ⟨lockItems_notFound_outcome requests store batchOk hcount hmiss,
   fun r hr hop hg => mem_missingIds requests store r hr hop hg⟩

/-- Counterexample to C5 as stated: with 26 delete operations on an id that
is not in the store, the premise of the claim holds (a non-create
operation's id is not found) but the phase aborts with `SYSTEM_ERROR`
("Cannot lock more than 25 items"), not `USER_ERROR`. -/
theorem lock_phase_not_found_claim_counterexample :
    (∃ r ∈ List.replicate 26
        ({ operation := TypeOperation.delete, resourceType := "Patient", id := "Y" } :
          BatchReadWriteRequest),
      r.operation ≠ TypeOperation.create ∧ getMostRecentResource [] r.resourceType r.id = none)
  ∧ (lockItems (List.replicate 26
        { operation := TypeOperation.delete, resourceType := "Patient", id := "Y" }) [] true).errorType
      = some BatchReadWriteErrorType.SYSTEM_ERROR
  ∧ ¬ (lockItems (List.replicate 26
        { operation := TypeOperation.delete, resourceType := "Patient", id := "Y" }) [] true).errorType
      = some BatchReadWriteErrorType.USER_ERROR := by
  decide

/-- Witness for the amended C5 at one delete operation over an empty store. -/
theorem lock_phase_not_found_aborts_with_user_error_witness :
    (([({ operation := TypeOperation.delete, resourceType := "Patient", id := "Y" } :
        BatchReadWriteRequest)].filter
          (fun r => decide (r.operation ≠ TypeOperation.create))).length ≤ 25)
  ∧ (∃ r ∈ [({ operation := TypeOperation.delete, resourceType := "Patient", id := "Y" } :
        BatchReadWriteRequest)],
      r.operation ≠ TypeOperation.create ∧ getMostRecentResource [] r.resourceType r.id = none)
  ∧ lockItems [{ operation := TypeOperation.delete, resourceType := "Patient", id := "Y" }] [] true =
      { successfulLock := false, errorType := some BatchReadWriteErrorType.USER_ERROR,
        errorMessage := some ("Failed to find resources: " ++ String.intercalate ","
          (missingIds [{ operation := TypeOperation.delete, resourceType := "Patient", id := "Y" }] [])),
        lockedItems := [], submittedBatch := none } :=
  ⟨by decide, by decide,
   (lock_phase_not_found_aborts_with_user_error
      [{ operation := TypeOperation.delete, resourceType := "Patient", id := "Y" }] [] true
      (by decide) (by decide)).1⟩

/-- C6: for all non-create operations, if the looked-up current version is
not `AVAILABLE` or the id is missing (the spec-modelled
`getMostRecentResource` reports not-found in both cases), the lock phase
returns `successfulLock := false` and submits no status-update batch to the
store — regardless of how the lock batch round-trip would have fared. -/
theorem lock_phase_unavailable_fails_without_batch (requests : List BatchReadWriteRequest)
    (store : Store) (batchOk : Bool) (r : BatchReadWriteRequest)
    (hr : r ∈ requests) (hop : r.operation ≠ TypeOperation.create)
    (hg : getMostRecentResource store r.resourceType r.id = none) :
    (lockItems requests store batchOk).successfulLock = false
    ∧ (lockItems requests store batchOk).submittedBatch = none := by
  by_cases hc : (requests.filter (fun r => decide (r.operation ≠ TypeOperation.create))).length ≤ 25
  · rw [lockItems_notFound_outcome requests store batchOk hc ⟨r, hr, hop, hg⟩]
    exact ⟨rfl, rfl⟩
  · unfold lockItems
    rw [if_pos (by simpa using Nat.lt_of_not_le hc)]
    exact ⟨rfl, rfl⟩

/-- Witness for C6 at one update operation over a store whose only version
of the id is `LOCKED` (not `AVAILABLE`). -/
theorem lock_phase_unavailable_fails_without_batch_witness :
    c6DemoReq ∈ [c6DemoReq]
  ∧ c6DemoReq.operation ≠ TypeOperation.create
  ∧ getMostRecentResource c6DemoStore c6DemoReq.resourceType c6DemoReq.id = none
  ∧ (lockItems [c6DemoReq] c6DemoStore true).successfulLock = false
  ∧ (lockItems [c6DemoReq] c6DemoStore true).submittedBatch = none := by
  refine ⟨by decide, by decide, by decide, ?_, ?_⟩
  · exact (lock_phase_unavailable_fails_without_batch [c6DemoReq] c6DemoStore true c6DemoReq
      (by decide) (by decide) (by decide)).1
  · exact (lock_phase_unavailable_fails_without_batch [c6DemoReq] c6DemoStore true c6DemoReq
      (by decide) (by decide) (by decide)).2

/-! ## C7: chunked unlock and failure reporting -/

theorem chunkArrayFuel_length_le (size : Nat) :
    ∀ (fuel : Nat) (l : List α), ∀ c ∈ chunkArrayFuel fuel l size, c.length ≤ size := by
  intro fuel
  induction fuel with
  | zero => intro l c hc; cases l <;> simp [chunkArrayFuel] at hc
  | succ fuel ih =>
    intro l c hc
    cases l with
    | nil => simp [chunkArrayFuel] at hc
    | cons x xs =>
      simp only [chunkArrayFuel, List.mem_cons] at hc
      rcases hc with h | h
      · subst h; simp [Nat.min_le_left]
      · exact ih _ c h

theorem chunkArrayFuel_map (f : α → β) (size : Nat) :
    ∀ (fuel : Nat) (l : List α),
      chunkArrayFuel fuel (l.map f) size = (chunkArrayFuel fuel l size).map (List.map f) := by
  intro fuel
  induction fuel with
  | zero => intro l; cases l <;> simp [chunkArrayFuel]
  | succ fuel ih =>
    intro l
    cases l with
    | nil => simp [chunkArrayFuel]
    | cons x xs =>
      show ((x :: xs).map f).take size :: chunkArrayFuel fuel (((x :: xs).map f).drop size) size = _
      rw [← List.map_take, ← List.map_drop, ih]
      rfl

theorem chunkArrayFuel_flatten (size : Nat) (hsize : 0 < size) :
    ∀ (fuel : Nat) (l : List α), l.length ≤ fuel →
      (chunkArrayFuel fuel l size).flatten = l := by
  intro fuel
  induction fuel with
  | zero =>
    intro l hl
    cases l with
    | nil => rfl
    | cons x xs => simp at hl
  | succ fuel ih =>
    intro l hl
    cases l with
    | nil => rfl
    | cons x xs =>
      simp only [chunkArrayFuel, List.flatten_cons]
      rw [ih ((x :: xs).drop size) (by simp at hl ⊢; omega)]
      exact List.take_append_drop size (x :: xs)

theorem chunkArrayFuel_drop_flatten (size : Nat) (hsize : 0 < size) :
    ∀ (k fuel : Nat) (l : List α), l.length ≤ fuel →
      ((chunkArrayFuel fuel l size).drop k).flatten = l.drop (size * k) := by
  intro k
  induction k with
  | zero =>
    intro fuel l hl
    simpa using chunkArrayFuel_flatten size hsize fuel l hl
  | succ k ih =>
    intro fuel l hl
    cases fuel with
    | zero =>
      cases l with
      | nil => simp [chunkArrayFuel]
      | cons x xs => simp at hl
    | succ fuel =>
      cases l with
      | nil => simp [chunkArrayFuel]
      | cons x xs =>
        simp only [chunkArrayFuel, List.drop_succ_cons]
        rw [ih fuel ((x :: xs).drop size) (by simp at hl ⊢; omega)]
        rw [List.drop_drop]
        congr 1
        ring

theorem unlockGo_all_ok (chunkOk : Nat → Bool) :
    ∀ (ps : List (List StoreRequest)) (lcs : List (List ItemRequest)) (i : Nat),
      (∀ j, j < ps.length → chunkOk (i + j) = true) →
      unlockGo chunkOk ps lcs i = ⟨true, []⟩ := by
  intro ps
  induction ps with
  | nil => intro lcs i _; rfl
  | cons p ps ih =>
    intro lcs i h
    have h0 : chunkOk i = true := by simpa using h 0 (by simp)
    simp only [unlockGo, h0, if_pos]
    exact ih lcs.tail (i + 1) (fun j hj => by
      have := h (j + 1) (by simpa using Nat.succ_lt_succ hj)
      simpa [Nat.add_assoc, Nat.add_comm 1 j] using this)

theorem unlockGo_first_failure (chunkOk : Nat → Bool) :
    ∀ (ps : List (List StoreRequest)) (lcs : List (List ItemRequest)) (i k : Nat),
      k < ps.length →
      (∀ j, j < k → chunkOk (i + j) = true) →
      chunkOk (i + k) = false →
      unlockGo chunkOk ps lcs i = ⟨false, (lcs.drop k).flatten⟩ := by
  intro ps
  induction ps with
  | nil => intro lcs i k hk; simp at hk
  | cons p ps ih =>
    intro lcs i k hk hpre hk0
    cases k with
    | zero =>
      simp only [Nat.add_zero] at hk0
      simp [unlockGo, hk0]
    | succ k =>
      have h0 : chunkOk i = true := by simpa using hpre 0 (Nat.succ_pos k)
      simp only [unlockGo, h0, if_pos]
      rw [ih lcs.tail (i + 1) k (by simpa using Nat.lt_of_succ_lt_succ hk)
        (fun j hj => by
          have := hpre (j + 1) (Nat.succ_lt_succ hj)
          simpa [Nat.add_assoc, Nat.add_comm 1 j] using this)
        (by simpa [Nat.add_assoc, Nat.add_comm 1 k] using hk0)]
      have hd : lcs.tail.drop k = lcs.drop (k + 1) := by
        rw [← List.drop_one, List.drop_drop, Nat.add_comm]
      rw [hd]

/-- C7: the unlock phase partitions the lock set into chunks of at most 25,
submits them strictly sequentially, and when chunk `i0` is the first to
fail, reports exactly the locks of chunk `i0` and of every later chunk
(attempted or not) as failed to release with `successfulUnlock := false`;
when every chunk succeeds, `locksFailedToRelease` is empty. -/
theorem unlock_chunked_failure_reporting (lockedItems : List ItemRequest) (rollBack : Bool)
    (chunkOk : Nat → Bool) :
    (∀ c ∈ chunkArray lockedItems 25, c.length ≤ 25)
  ∧ ((∀ i, i < (chunkArray lockedItems 25).length → chunkOk i = true) →
      unlockItems lockedItems rollBack chunkOk = ⟨true, []⟩)
  ∧ (∀ i0, i0 < (chunkArray lockedItems 25).length →
      (∀ j, j < i0 → chunkOk j = true) → chunkOk i0 = false →
      unlockItems lockedItems rollBack chunkOk = ⟨false, lockedItems.drop (25 * i0)⟩) := by
  have hlen : (chunkArray (unlockUpdateRequests lockedItems rollBack) 25).length
      = (chunkArray lockedItems 25).length := by
    unfold chunkArray unlockUpdateRequests
    rw [show (lockedItems.map (fun li => buildUpdateDocumentStatusParam none
        (unlockNewStatus li rollBack) li.id (jsOrStr li.vid "0"))).length = lockedItems.length
      from List.length_map _ _]
    rw [chunkArrayFuel_map]
    exact List.length_map _ _
  refine ⟨fun c hc => chunkArrayFuel_length_le 25 _ lockedItems c hc, ?_, ?_⟩
  · intro hall
    unfold unlockItems
    by_cases he : lockedItems.isEmpty
    · simp [he]
    · simp only [he, if_neg, Bool.false_eq_true, not_false_iff]
      exact unlockGo_all_ok chunkOk _ _ 0 (fun j hj => by
        rw [Nat.zero_add]
        exact hall j (hlen ▸ hj))
  · intro i0 hi0 hpre hfail
    unfold unlockItems
    have hne : ¬ lockedItems.isEmpty := by
      intro he
      rw [List.isEmpty_iff.mp he] at hi0
      simp [chunkArray, chunkArrayFuel] at hi0
    simp only [hne, if_neg, Bool.false_eq_true, not_false_iff]
    rw [unlockGo_first_failure chunkOk _ _ 0 i0 (by rw [hlen]; exact hi0)
      (fun j hj => by rw [Nat.zero_add]; exact hpre j hj)
      (by rw [Nat.zero_add]; exact hfail)]
    rw [show (chunkArray lockedItems 25).drop i0 = (chunkArrayFuel lockedItems.length lockedItems 25).drop i0 from rfl]
    rw [chunkArrayFuel_drop_flatten 25 (by omega) i0 lockedItems.length lockedItems (Nat.le_refl _)]

/-- Witness for C7: 26 locks form two chunks; failing the second round-trip
reports exactly the 26th lock as failed to release. -/
theorem unlock_chunked_failure_reporting_witness :
    (1 < (chunkArray c7DemoLocks 25).length)
  ∧ ((fun i => decide (i = 0)) 1 = false)
  ∧ unlockItems c7DemoLocks false (fun i => decide (i = 0)) =
      ⟨false, c7DemoLocks.drop (25 * 1)⟩ :=
  ⟨by decide, by decide,
   (unlock_chunked_failure_reporting c7DemoLocks false (fun i => decide (i = 0))).2.2 1 (by decide)
     (fun j hj => by rw [Nat.lt_one_iff.mp hj]; decide)
     (by decide)⟩

/-! ## C8: the at-most-one-AVAILABLE invariant -/

/-- Counterexample to C8 as stated: over a well-formed store satisfying the
invariant (`X@2` is the only `AVAILABLE` row of `X`), a successful
transaction containing a create operation whose caller-supplied id is `X`
writes `X@1` as `PENDING` and then flips it to `AVAILABLE` at unlock,
leaving two `AVAILABLE` versions of `X` — the unlock transition does not
preserve the invariant. -/
theorem invariant_preservation_counterexample :
    okStoreB c8CxStore = true
  ∧ keyNodupB c8CxStore = true
  ∧ InvStore c8CxStore
  ∧ (runTransaction c8CxStore c8CxReqs ["u1"] "T0" false false (fun _ => true)).any
      (fun s => !okStoreB s) = true
  ∧ availCount
      ((runTransaction c8CxStore c8CxReqs ["u1"] "T0" false false (fun _ => true)).getLastD [])
      "X" = 2 := by
  refine ⟨by decide, by decide, ?_, by decide, by decide⟩
  intro id
  calc availCount c8CxStore id ≤ c8CxStore.length := List.countP_le_length _
  _ ≤ 1 := by decide

/-! ### Per-request store lemmas -/

theorem availCount_applyRequest_frame (store : Store) (q : StoreRequest) (id : String)
    (h : (requestKey q).1 ≠ id) :
    availCount (applyRequest store q) id = availCount store id := by
  cases q with
  | updateStatus o st qid vid =>
    simp only [requestKey] at h
    simp only [applyRequest, availCount]
    split
    · rw [List.countP_map]
      refine List.countP_congr (fun r _ => ?_)
      by_cases hm : r.id = qid ∧ r.vid = vid
      · have hne : ¬ r.id = id := by rw [hm.1]; exact h
        simp only [hm, if_pos, Function.comp]
        simp
        exact fun he => absurd he h
      · simp [hm, Function.comp]
    · rw [List.countP_append]
      simp [h]
  | put item =>
    simp only [requestKey] at h
    simp only [applyRequest, availCount]
    split
    · rw [List.countP_map]
      refine List.countP_congr (fun r _ => ?_)
      by_cases hm : r.id = item.id ∧ r.vid = item.vid
      · have hne : ¬ r.id = id := by rw [hm.1]; exact h
        simp [hm, hne, h, Function.comp]
      · simp [hm, Function.comp]
    · rw [List.countP_append]
      simp [h]
  | deleteRow qid vid =>
    simp only [requestKey] at h
    simp only [applyRequest, availCount]
    rw [List.countP_filter]
    refine List.countP_congr (fun r _ => ?_)
    by_cases hid : r.id = id
    · have hne : ¬ (r.id = qid ∧ r.vid = vid) := fun hm => h (by rw [← hm.1, hid])
      simp [hid]
      exact fun _ => Or.inl (fun he => h he.symm)
    · simp [hid]
  | get qid vid => rfl

theorem availCount_applyRequest_le (store : Store) (q : StoreRequest) (id : String)
    (h : requestSetsAvail q = false) :
    availCount (applyRequest store q) id ≤ availCount store id := by
  cases q with
  | updateStatus o st qid vid =>
    have hst : st ≠ DOCUMENT_STATUS.AVAILABLE := by
      intro he; subst he; simp [requestSetsAvail] at h
    simp only [applyRequest, availCount]
    split
    · rw [List.countP_map]
      refine List.countP_mono_left (fun r _ hr => ?_)
      simp only [Function.comp] at hr
      by_cases hm : r.id = qid ∧ r.vid = vid
      · simp [hm, hst] at hr
      · simpa [hm] using hr
    · rw [List.countP_append]
      simp [hst]
  | put item =>
    have hst : item.documentStatus ≠ DOCUMENT_STATUS.AVAILABLE := by
      intro he; simp [requestSetsAvail, he] at h
    simp only [applyRequest, availCount]
    split
    · rw [List.countP_map]
      refine List.countP_mono_left (fun r _ hr => ?_)
      simp only [Function.comp] at hr
      by_cases hm : r.id = item.id ∧ r.vid = item.vid
      · simp [hm, hst] at hr
      · simpa [hm] using hr
    · rw [List.countP_append]
      simp [hst]
  | deleteRow qid vid =>
    simp only [applyRequest, availCount]
    rw [List.countP_filter]
    refine List.countP_mono_left (fun r _ hr => ?_)
    simp only [Bool.and_eq_true] at hr
    exact hr.1
  | get qid vid => exact Nat.le_refl _

/-- Rows that are `AVAILABLE` after a non-`AVAILABLE`-making action were
already present (with the same fields) before it. -/
theorem avail_row_mem_of_applyRequest (store : Store) (q : StoreRequest)
    (h : requestSetsAvail q = false) :
    ∀ row ∈ applyRequest store q, row.status = DOCUMENT_STATUS.AVAILABLE → row ∈ store := by
  cases q with
  | updateStatus o st qid vid =>
    have hst : st ≠ DOCUMENT_STATUS.AVAILABLE := by
      intro he; subst he; simp [requestSetsAvail] at h
    simp only [applyRequest]
    split
    · intro row hrow hav
      obtain ⟨a, ha, hfa⟩ := List.mem_map.mp hrow
      by_cases hm : a.id = qid ∧ a.vid = vid
      · rw [if_pos hm] at hfa
        rw [← hfa] at hav
        exact absurd hav hst
      · rw [if_neg hm] at hfa
        exact hfa ▸ ha
    · intro row hrow hav
      rcases List.mem_append.mp hrow with hmem | hmem
      · exact hmem
      · simp only [List.mem_singleton] at hmem
        rw [hmem] at hav
        exact absurd hav hst
  | put item =>
    have hst : item.documentStatus ≠ DOCUMENT_STATUS.AVAILABLE := by
      intro he; simp [requestSetsAvail, he] at h
    simp only [applyRequest]
    split
    · intro row hrow hav
      obtain ⟨a, ha, hfa⟩ := List.mem_map.mp hrow
      by_cases hm : a.id = item.id ∧ a.vid = item.vid
      · rw [if_pos hm] at hfa
        rw [← hfa] at hav
        exact absurd hav hst
      · rw [if_neg hm] at hfa
        exact hfa ▸ ha
    · intro row hrow hav
      rcases List.mem_append.mp hrow with hmem | hmem
      · exact hmem
      · simp only [List.mem_singleton] at hmem
        rw [hmem] at hav
        exact absurd hav hst
  | deleteRow qid vid =>
    intro row hrow _
    exact List.mem_of_mem_filter hrow
  | get qid vid => exact fun row hrow _ => hrow

theorem nodupKeysB_iff (ks : List (String × String)) : nodupKeysB ks = true ↔ ks.Nodup := by
  induction ks with
  | nil => simp [nodupKeysB]
  | cons k rest ih =>
    simp only [nodupKeysB, Bool.and_eq_true, Bool.not_eq_true', List.nodup_cons, ih]
    constructor
    · rintro ⟨h1, h2⟩
      refine ⟨fun hm => ?_, h2⟩
      have hc : rest.contains k = true := List.elem_iff.mpr hm
      rw [h1] at hc
      simp at hc
    · rintro ⟨h1, h2⟩
      refine ⟨?_, h2⟩
      by_cases hc : rest.contains k = true
      · exact absurd (List.elem_iff.mp hc) h1
      · simpa using hc

theorem countP_key_le_one (store : Store) (hwf : keyNodupB store = true) (X v : String) :
    store.countP (fun r => decide (r.id = X ∧ r.vid = v)) ≤ 1 := by
  unfold keyNodupB at hwf
  rw [nodupKeysB_iff] at hwf
  induction store with
  | nil => simp
  | cons r rest ih =>
    simp only [List.map_cons, List.nodup_cons] at hwf
    rw [List.countP_cons]
    by_cases hm : r.id = X ∧ r.vid = v
    · have hz : rest.countP (fun r => decide (r.id = X ∧ r.vid = v)) = 0 := by
        rw [List.countP_eq_zero]
        simp only [decide_eq_true_eq, not_and]
        intro a ha haX hav
        refine hwf.1 ?_
        have hk : (a.id, a.vid) = (r.id, r.vid) := by rw [haX, hav, hm.1, hm.2]
        rw [← hk]
        exact List.mem_map_of_mem _ ha
      rw [hz]
      split <;> simp
    · have hp : decide (r.id = X ∧ r.vid = v) = false := decide_eq_false hm
      rw [hp]
      simpa using ih hwf.2

theorem keyNodupB_applyRequest (store : Store) (q : StoreRequest)
    (h : keyNodupB store = true) : keyNodupB (applyRequest store q) = true := by
  unfold keyNodupB at h ⊢
  rw [nodupKeysB_iff] at h ⊢
  cases q with
  | updateStatus o st qid vid =>
    simp only [applyRequest]
    split
    · rw [List.map_map]
      rw [show ((fun (r : StoreRow) => (r.id, r.vid)) ∘ fun r =>
          if r.id = qid ∧ r.vid = vid then { r with status := st } else r)
        = (fun (r : StoreRow) => (r.id, r.vid)) from ?_]
      · exact h
      · funext r
        simp only [Function.comp_apply]
        by_cases hm : r.id = qid ∧ r.vid = vid
        · rw [if_pos hm]
        · rw [if_neg hm]
    · rename_i hany
      rw [List.map_append]
      simp only [List.map_cons, List.map_nil]
      rw [List.nodup_append]
      refine ⟨h, List.nodup_singleton _, ?_⟩
      intro k hk
      simp only [List.mem_singleton]
      obtain ⟨a, ha, hka⟩ := List.mem_map.mp hk
      intro he
      rw [he] at hka
      injection hka with h1 h2
      have hpa : (fun (r : StoreRow) => decide (r.id = qid ∧ r.vid = vid)) a = true := by
        simp only [decide_eq_true_eq]
        exact ⟨h1, h2⟩
      exact absurd (List.any_eq_true.mpr ⟨a, ha, hpa⟩) hany
  | put item =>
    simp only [applyRequest]
    split
    · rw [List.map_map]
      rw [show ((fun (r : StoreRow) => (r.id, r.vid)) ∘ fun r =>
          if r.id = item.id ∧ r.vid = item.vid then
            ({ id := item.id, vid := item.vid, resourceType := item.resource.resourceType,
               status := item.documentStatus } : StoreRow) else r)
        = (fun (r : StoreRow) => (r.id, r.vid)) from ?_]
      · exact h
      · funext r
        simp only [Function.comp_apply]
        by_cases hm : r.id = item.id ∧ r.vid = item.vid
        · rw [if_pos hm, hm.1, hm.2]
        · rw [if_neg hm]
    · rename_i hany
      rw [List.map_append]
      simp only [List.map_cons, List.map_nil]
      rw [List.nodup_append]
      refine ⟨h, List.nodup_singleton _, ?_⟩
      intro k hk
      simp only [List.mem_singleton]
      obtain ⟨a, ha, hka⟩ := List.mem_map.mp hk
      intro he
      rw [he] at hka
      injection hka with h1 h2
      have hpa : (fun (r : StoreRow) => decide (r.id = item.id ∧ r.vid = item.vid)) a = true := by
        simp only [decide_eq_true_eq]
        exact ⟨h1, h2⟩
      exact absurd (List.any_eq_true.mpr ⟨a, ha, hpa⟩) hany
  | deleteRow qid vid =>
    simp only [applyRequest]
    exact List.Nodup.sublist (List.Sublist.map _ (List.filter_sublist store)) h
  | get qid vid => exact h

/-- A write action that does not set `AVAILABLE` clears its target id
entirely when every `AVAILABLE` row of that id sits at the targeted
version. -/
theorem availCount_applyRequest_zero (store : Store) (q : StoreRequest)
    (hna : requestSetsAvail q = false) (hw : isWriteAction q = true)
    (hrows : ∀ row ∈ store, row.id = (requestKey q).1 →
      row.status = DOCUMENT_STATUS.AVAILABLE → row.vid = (requestKey q).2) :
    availCount (applyRequest store q) (requestKey q).1 = 0 := by
  have key_of : ∀ row ∈ store, row.id = (requestKey q).1 →
      row.status = DOCUMENT_STATUS.AVAILABLE →
      row.id = (requestKey q).1 ∧ row.vid = (requestKey q).2 :=
    fun row hr hid hav => ⟨hid, hrows row hr hid hav⟩
  unfold availCount
  rw [List.countP_eq_zero]
  cases q with
  | updateStatus o st qid vid =>
    have hst : st ≠ DOCUMENT_STATUS.AVAILABLE := by
      intro he; subst he; simp [requestSetsAvail] at hna
    simp only [requestKey] at key_of ⊢
    simp only [applyRequest]
    split
    · intro a ha
      obtain ⟨b, hb, hfb⟩ := List.mem_map.mp ha
      by_cases hm : b.id = qid ∧ b.vid = vid
      · rw [if_pos hm] at hfb
        rw [← hfb]
        simp only [decide_eq_true_eq, not_and]
        exact fun _ hav => hst hav
      · rw [if_neg hm] at hfb
        rw [← hfb]
        simp only [decide_eq_true_eq, not_and]
        intro hid hav
        exact absurd (key_of b hb hid hav) hm
    · rename_i hany
      intro a ha
      rcases List.mem_append.mp ha with hmem | hmem
      · simp only [decide_eq_true_eq, not_and]
        intro hid hav
        have hkw := key_of a hmem hid hav
        have hpa : (fun (r : StoreRow) => decide (r.id = qid ∧ r.vid = vid)) a = true := by
          simp only [decide_eq_true_eq]
          exact ⟨hkw.1, hkw.2⟩
        exact absurd (List.any_eq_true.mpr ⟨a, hmem, hpa⟩) hany
      · simp only [List.mem_singleton] at hmem
        rw [hmem]
        simp only [decide_eq_true_eq, not_and]
        exact fun _ hav => hst hav
  | put item =>
    have hst : item.documentStatus ≠ DOCUMENT_STATUS.AVAILABLE := by
      intro he; simp [requestSetsAvail, he] at hna
    simp only [requestKey] at key_of ⊢
    simp only [applyRequest]
    split
    · intro a ha
      obtain ⟨b, hb, hfb⟩ := List.mem_map.mp ha
      by_cases hm : b.id = item.id ∧ b.vid = item.vid
      · rw [if_pos hm] at hfb
        rw [← hfb]
        simp only [decide_eq_true_eq, not_and]
        exact fun _ hav => hst hav
      · rw [if_neg hm] at hfb
        rw [← hfb]
        simp only [decide_eq_true_eq, not_and]
        intro hid hav
        exact absurd (key_of b hb hid hav) hm
    · rename_i hany
      intro a ha
      rcases List.mem_append.mp ha with hmem | hmem
      · simp only [decide_eq_true_eq, not_and]
        intro hid hav
        have hkw := key_of a hmem hid hav
        have hpa : (fun (r : StoreRow) => decide (r.id = item.id ∧ r.vid = item.vid)) a = true := by
          simp only [decide_eq_true_eq]
          exact ⟨hkw.1, hkw.2⟩
        exact absurd (List.any_eq_true.mpr ⟨a, hmem, hpa⟩) hany
      · simp only [List.mem_singleton] at hmem
        rw [hmem]
        simp only [decide_eq_true_eq, not_and]
        exact fun _ hav => hst hav
  | deleteRow qid vid =>
    simp only [requestKey] at key_of ⊢
    simp only [applyRequest]
    intro a ha
    have hmem := List.mem_of_mem_filter ha
    have hcond := List.of_mem_filter ha
    simp only [decide_eq_true_eq, not_and]
    intro hid hav
    have hkw := key_of a hmem hid hav
    simp [hkw.1, hkw.2] at hcond
  | get qid vid => simp [isWriteAction] at hw

/-- Releasing `(X, v)` to any status over a well-formed store with no
`AVAILABLE` row of `X` leaves at most one `AVAILABLE` row of `X`. -/
theorem availCount_applyRequest_availSet_le_one (store : Store) (o : Option DOCUMENT_STATUS)
    (st : DOCUMENT_STATUS) (X v : String)
    (hwf : keyNodupB store = true) (h0 : availCount store X = 0) :
    availCount (applyRequest store (StoreRequest.updateStatus o st X v)) X ≤ 1 := by
  have hall := List.countP_eq_zero.mp h0
  unfold availCount at *
  simp only [applyRequest]
  split
  · rw [List.countP_map]
    calc List.countP ((fun r => decide (r.id = X ∧ r.status = DOCUMENT_STATUS.AVAILABLE)) ∘
          fun r => if r.id = X ∧ r.vid = v then { r with status := st } else r) store
        ≤ List.countP (fun r => decide (r.id = X ∧ r.vid = v)) store := by
          refine List.countP_mono_left (fun r hr hp => ?_)
          simp only [Function.comp_apply] at hp
          by_cases hm : r.id = X ∧ r.vid = v
          · simpa using hm
          · simp only [if_neg hm] at hp
            exact absurd hp (hall r hr)
      _ ≤ 1 := countP_key_le_one store hwf X v
  · rw [List.countP_append]
    rw [h0]
    simp only [List.countP_singleton, Nat.zero_add]
    split <;> simp

/-! ### Batch-level store lemmas -/

theorem availCount_foldl_le (batch : List StoreRequest) :
    ∀ (store : Store) (id : String), (∀ q ∈ batch, requestSetsAvail q = false) →
    availCount (batch.foldl applyRequest store) id ≤ availCount store id := by
  induction batch with
  | nil => intro store id _; exact Nat.le_refl _
  | cons q rest ih =>
    intro store id h
    calc availCount (rest.foldl applyRequest (applyRequest store q)) id
        ≤ availCount (applyRequest store q) id :=
          ih (applyRequest store q) id (fun q' hq' => h q' (List.mem_cons_of_mem _ hq'))
      _ ≤ availCount store id :=
          availCount_applyRequest_le store q id (h q (List.mem_cons_self _ _))

theorem avail_row_mem_foldl (batch : List StoreRequest) :
    ∀ (store : Store), (∀ q ∈ batch, requestSetsAvail q = false) →
    ∀ row ∈ batch.foldl applyRequest store, row.status = DOCUMENT_STATUS.AVAILABLE → row ∈ store := by
  induction batch with
  | nil => intro store _ row hrow _; exact hrow
  | cons q rest ih =>
    intro store h row hrow hav
    exact avail_row_mem_of_applyRequest store q (h q (List.mem_cons_self _ _)) row
      (ih (applyRequest store q) (fun q' hq' => h q' (List.mem_cons_of_mem _ hq')) row hrow hav) hav

theorem availCount_foldl_frame (batch : List StoreRequest) :
    ∀ (store : Store) (id : String), (∀ q ∈ batch, (requestKey q).1 ≠ id) →
    availCount (batch.foldl applyRequest store) id = availCount store id := by
  induction batch with
  | nil => intro store id _; rfl
  | cons q rest ih =>
    intro store id h
    rw [List.foldl_cons, ih (applyRequest store q) id (fun q' hq' => h q' (List.mem_cons_of_mem _ hq')),
      availCount_applyRequest_frame store q id (h q (List.mem_cons_self _ _))]

theorem keyNodupB_foldl (batch : List StoreRequest) :
    ∀ (store : Store), keyNodupB store = true →
    keyNodupB (batch.foldl applyRequest store) = true := by
  induction batch with
  | nil => intro store h; exact h
  | cons q rest ih =>
    intro store h
    exact ih (applyRequest store q) (keyNodupB_applyRequest store q h)

theorem availCount_foldl_zero (batch : List StoreRequest) (X w : String) :
    ∀ (store : Store), (∀ q ∈ batch, requestSetsAvail q = false) →
    (∃ q ∈ batch, isWriteAction q = true ∧ requestKey q = (X, w)) →
    (∀ row ∈ store, row.id = X → row.status = DOCUMENT_STATUS.AVAILABLE → row.vid = w) →
    availCount (batch.foldl applyRequest store) X = 0 := by
  induction batch with
  | nil => intro store _ hex _; simp at hex
  | cons q rest ih =>
    intro store hna hex hrows
    by_cases hq : isWriteAction q = true ∧ requestKey q = (X, w)
    · have h0 : availCount (applyRequest store q) X = 0 := by
        have := availCount_applyRequest_zero store q (hna q (List.mem_cons_self _ _)) hq.1
          (by rw [hq.2]; exact hrows)
        rwa [hq.2] at this
      have hle := availCount_foldl_le rest (applyRequest store q) X
        (fun q' hq' => hna q' (List.mem_cons_of_mem _ hq'))
      rw [List.foldl_cons]
      omega
    · obtain ⟨q', hq', hw', hk'⟩ := hex
      rcases List.mem_cons.mp hq' with he | hmem
      · exact absurd ⟨he ▸ hw', he ▸ hk'⟩ hq
      · rw [List.foldl_cons]
        refine ih (applyRequest store q) (fun p hp => hna p (List.mem_cons_of_mem _ hp))
          ⟨q', hmem, hw', hk'⟩ ?_
        intro row hrow hid hav
        exact hrows row
          (avail_row_mem_of_applyRequest store q (hna q (List.mem_cons_self _ _)) row hrow hav)
          hid hav

/-! ### The unlock phase preserves the invariant -/

theorem requestSetsAvail_updateStatus (o : Option DOCUMENT_STATUS) (st : DOCUMENT_STATUS)
    (id vid : String) :
    requestSetsAvail (StoreRequest.updateStatus o st id vid) =
      decide (st = DOCUMENT_STATUS.AVAILABLE) := by
  cases st <;> rfl

theorem unlock_prefix_inv (reqs : List StoreRequest) :
    ∀ (store : Store), keyNodupB store = true → InvStore store →
    (∀ q ∈ reqs, ∃ o st id vid, q = StoreRequest.updateStatus o st id vid) →
    (∀ id, reqs.countP (fun q => requestSetsAvail q && decide ((requestKey q).1 = id)) ≤ 1) →
    (∀ q ∈ reqs, requestSetsAvail q = true → availCount store (requestKey q).1 = 0) →
    ∀ p : List StoreRequest, p.IsPrefix reqs → InvStore (p.foldl applyRequest store) := by
  induction reqs with
  | nil =>
    intro store _ hinv _ _ _ p hp
    rw [List.prefix_nil.mp hp]
    exact hinv
  | cons q rest ih =>
    intro store hwf hinv hshape hcnt hzero p hp
    cases p with
    | nil => exact hinv
    | cons q' p' =>
      obtain ⟨he, hp'⟩ := List.cons_prefix_cons.mp hp
      rw [List.foldl_cons, he]
      have hwf' : keyNodupB (applyRequest store q) = true := keyNodupB_applyRequest store q hwf
      have hinv' : InvStore (applyRequest store q) := by
        intro id
        by_cases hsa : requestSetsAvail q = true
        · by_cases hid : (requestKey q).1 = id
          · obtain ⟨o, st, qid, vid, hqe⟩ := hshape q (List.mem_cons_self _ _)
            have hz := hzero q (List.mem_cons_self _ _) hsa
            rw [hqe] at hz hid ⊢
            simp only [requestKey] at hid hz
            rw [← hid]
            exact availCount_applyRequest_availSet_le_one store o st qid vid hwf hz
          · rw [availCount_applyRequest_frame store q id hid]
            exact hinv id
        · calc availCount (applyRequest store q) id ≤ availCount store id :=
                availCount_applyRequest_le store q id (Bool.not_eq_true _ ▸ hsa)
            _ ≤ 1 := hinv id
      refine ih (applyRequest store q) hwf' hinv'
        (fun q' hq' => hshape q' (List.mem_cons_of_mem _ hq'))
        (fun id => le_trans (by rw [List.countP_cons]; omega) (hcnt id))
        ?_ p' hp'
      intro q2 hq2 hsa2
      by_cases hsa : requestSetsAvail q = true
      · by_cases hid : (requestKey q2).1 = (requestKey q).1
        · exfalso
          have h1 : 0 < rest.countP
              (fun q3 => requestSetsAvail q3 && decide ((requestKey q3).1 = (requestKey q).1)) := by
            rw [List.countP_pos_iff]
            exact ⟨q2, hq2, by simp [hsa2, hid]⟩
          have h2 := hcnt (requestKey q).1
          rw [List.countP_cons] at h2
          have hq_pred : (requestSetsAvail q && decide ((requestKey q).1 = (requestKey q).1)) = true := by
            simp [hsa]
          rw [hq_pred] at h2
          simp only [if_pos] at h2
          omega
        · rw [availCount_applyRequest_frame store q _ (fun he => hid he.symm)]
          exact hzero q2 (List.mem_cons_of_mem _ hq2) hsa2
      · have hle := availCount_applyRequest_le store q (requestKey q2).1 (Bool.not_eq_true _ ▸ hsa)
        have := hzero q2 (List.mem_cons_of_mem _ hq2) hsa2
        omega

theorem attemptBatch_eq_foldl {ok : Bool} {store : Store} {batch : List StoreRequest}
    {store2 : Store} (h : attemptBatch ok store batch = some store2) :
    store2 = batch.foldl applyRequest store := by
  unfold attemptBatch applyBatch at h
  split at h
  · split at h
    · exact (Option.some_inj.mp h).symm
    · exact absurd h (by simp)
  · exact absurd h (by simp)

theorem unlockApplyChunks_mem (oracle : Nat → Bool) (chunks : List (List StoreRequest)) :
    ∀ (store : Store) (n : Nat) (s : Store), s ∈ unlockApplyChunks oracle chunks store n →
    ∃ p : List StoreRequest, p.IsPrefix chunks.flatten ∧ s = p.foldl applyRequest store := by
  induction chunks with
  | nil => intro store n s hs; simp [unlockApplyChunks] at hs
  | cons c cs ih =>
    intro store n s hs
    simp only [unlockApplyChunks] at hs
    rcases hmatch : attemptBatch (oracle n) store c with _ | store2
    · rw [hmatch] at hs
      simp only [List.mem_singleton] at hs
      exact ⟨[], List.nil_prefix, by rw [hs]; rfl⟩
    · rw [hmatch] at hs
      rcases List.mem_cons.mp hs with he | hmem
      · exact ⟨c, by rw [List.flatten_cons]; exact ⟨cs.flatten, rfl⟩,
          by rw [he, attemptBatch_eq_foldl hmatch]⟩
      · obtain ⟨p', hp', hsp⟩ := ih store2 (n + 1) s hmem
        refine ⟨c ++ p', ?_, ?_⟩
        · rw [List.flatten_cons]
          obtain ⟨t, ht⟩ := hp'
          exact ⟨t, by rw [List.append_assoc, ht]⟩
        · rw [List.foldl_append, ← attemptBatch_eq_foldl hmatch, hsp]

theorem availSetCount_eq_countP (locks : List ItemRequest) (rollBack : Bool) (id : String) :
    (unlockUpdateRequests locks rollBack).countP
        (fun q => requestSetsAvail q && decide ((requestKey q).1 = id))
      = availSetCount locks rollBack id := by
  unfold unlockUpdateRequests availSetCount buildUpdateDocumentStatusParam
  rw [List.countP_map]
  refine List.countP_congr (fun li _ => ?_)
  simp only [Function.comp_apply, requestKey, requestSetsAvail_updateStatus]
  by_cases h1 : unlockNewStatus li rollBack = DOCUMENT_STATUS.AVAILABLE <;>
    by_cases h2 : li.id = id <;> simp [h1, h2]

theorem runUnlock_inv (store : Store) (locks : List ItemRequest) (rollBack : Bool)
    (oracle : Nat → Bool) (n : Nat)
    (hwf : keyNodupB store = true) (hinv : InvStore store)
    (hcnt : ∀ id, availSetCount locks rollBack id ≤ 1)
    (hclear : ∀ li ∈ locks, unlockNewStatus li rollBack = DOCUMENT_STATUS.AVAILABLE →
      availCount store li.id = 0) :
    ∀ s ∈ runUnlock store locks rollBack oracle n, InvStore s := by
  intro s hs
  unfold runUnlock at hs
  split at hs
  · simp at hs
  · obtain ⟨p, hp, hsp⟩ := unlockApplyChunks_mem oracle _ store n s hs
    rw [hsp]
    have hflat : (chunkArray (unlockUpdateRequests locks rollBack) 25).flatten
        = unlockUpdateRequests locks rollBack :=
      chunkArrayFuel_flatten 25 (by omega) _ _ (Nat.le_refl _)
    rw [hflat] at hp
    refine unlock_prefix_inv (unlockUpdateRequests locks rollBack) store hwf hinv ?_ ?_ ?_ p hp
    · intro q hq
      obtain ⟨li, _, hli⟩ := List.mem_map.mp hq
      exact ⟨none, unlockNewStatus li rollBack, li.id, jsOrStr li.vid "0", hli.symm⟩
    · intro id
      rw [availSetCount_eq_countP]
      exact hcnt id
    · intro q hq hsa
      obtain ⟨li, hlim, hli⟩ := List.mem_map.mp hq
      rw [← hli]
      simp only [requestKey, buildUpdateDocumentStatusParam]
      refine hclear li hlim ?_
      rw [← hli] at hsa
      simpa [buildUpdateDocumentStatusParam, requestSetsAvail_updateStatus] using hsa

/-! ### Lock-phase structure on the batch-submitting path -/

theorem two_le_countP (l : List StoreRow) (p : StoreRow → Bool) (a b : StoreRow)
    (ha : a ∈ l) (hb : b ∈ l) (hne : a ≠ b) (hpa : p a = true) (hpb : p b = true) :
    2 ≤ l.countP p := by
  induction l with
  | nil => simp at ha
  | cons x xs ih =>
    rw [List.countP_cons]
    rcases List.mem_cons.mp ha with hax | hax
    · have hbx : b ∈ xs := by
        rcases List.mem_cons.mp hb with hbb | hbb
        · exact absurd (hax ▸ hbb ▸ rfl) hne
        · exact hbb
      have h1 : 0 < xs.countP p := List.countP_pos_iff.mpr ⟨b, hbx, hpb⟩
      rw [hax] at hpa
      rw [if_pos hpa]
      omega
    · rcases List.mem_cons.mp hb with hbb | hbb
      · have h1 : 0 < xs.countP p := List.countP_pos_iff.mpr ⟨a, hax, hpa⟩
        rw [hbb] at hpb
        rw [if_pos hpb]
        omega
      · have := ih hax hbb
        omega

theorem nodup_fst_of_nodup_pairs (ks : List (String × String))
    (hnd : ks.Nodup) (heq : ∀ k1 ∈ ks, ∀ k2 ∈ ks, k1.1 = k2.1 → k1 = k2) :
    (ks.map Prod.fst).Nodup := by
  induction ks with
  | nil => simp
  | cons k rest ih =>
    simp only [List.map_cons, List.nodup_cons] at *
    refine ⟨?_, ih hnd.2 (fun k1 h1 k2 h2 he =>
      heq k1 (List.mem_cons_of_mem _ h1) k2 (List.mem_cons_of_mem _ h2) he)⟩
    intro hmem
    obtain ⟨k', hk', hfst⟩ := List.mem_map.mp hmem
    have := heq k' (List.mem_cons_of_mem _ hk') k (List.mem_cons_self _ _) hfst
    exact hnd.1 (this ▸ hk')

theorem attemptBatch_some_facts {ok : Bool} {store : Store} {batch : List StoreRequest}
    {store2 : Store} (h : attemptBatch ok store batch = some store2) :
    (∀ q ∈ batch, condHolds store q = true) ∧ nodupKeysB (batch.map requestKey) = true ∧
    store2 = batch.foldl applyRequest store := by
  unfold attemptBatch applyBatch at h
  split at h
  · split at h
    · rename_i hcond
      simp only [Bool.and_eq_true, List.all_eq_true] at hcond
      exact ⟨hcond.1, hcond.2, (Option.some_inj.mp h).symm⟩
    · exact absurd h (by simp)
  · exact absurd h (by simp)

/-- The success path of `lockItems` in closed form: with at most 25
non-create operations and no missing id, the result is the lock records and
conditional lock batch built from the per-request lookups. -/
theorem lockItems_success_eq (requests : List BatchReadWriteRequest) (store : Store)
    (h1 : ((requests.filter (fun r => decide (r.operation ≠ TypeOperation.create))).length ≤ 25))
    (h2 : missingIds requests store = []) :
    lockItems requests store true =
      (let allNonCreateRequests := requests.filter (fun r => decide (r.operation ≠ TypeOperation.create))
       let itemsToLock : List ItemRequest := allNonCreateRequests.map (fun r =>
         { id := r.id, resourceType := r.resourceType, operation := r.operation })
       let itemResponses := itemsToLock.map (fun it => getMostRecentResource store it.resourceType it.id)
       let lockedItems : List ItemRequest :=
         (allNonCreateRequests.zip itemResponses).filterMap (fun p =>
           match p.2 with
           | none => none
           | some found =>
             some { id := found.id, vid := some found.versionId, resourceType := found.resourceType,
                    operation := p.1.operation,
                    isOriginalUpdateItem :=
                      if p.1.operation = TypeOperation.update then some true else none })
       let addLockRequests : List StoreRequest := itemResponses.filterMap (fun o =>
         o.map (fun f =>
           buildUpdateDocumentStatusParam (some DOCUMENT_STATUS.AVAILABLE) DOCUMENT_STATUS.LOCKED
             f.id f.versionId))
       if addLockRequests.length > 0 then
         { successfulLock := true, lockedItems := lockedItems,
           submittedBatch := some addLockRequests }
       else
         { successfulLock := true, lockedItems := [], submittedBatch := none }) := by
  unfold lockItems
  rw [if_neg (by simpa using Nat.not_lt.mpr h1)]
  dsimp only
  rw [lockItems_missing_list requests store, h2]
  rw [if_neg (by simp)]
  split <;> rfl

theorem getMostRecentResource_id {store : Store} {rt id : String} {f : FoundResource}
    (h : getMostRecentResource store rt id = some f) : f.id = id ∧ f.resourceType = rt := by
  unfold getMostRecentResource at h
  split at h
  · exact absurd h (by simp)
  · obtain rfl := Option.some_inj.mp h.symm
    exact ⟨rfl, rfl⟩

theorem all_found_of_missingIds_nil {requests : List BatchReadWriteRequest} {store : Store}
    (h : missingIds requests store = []) :
    ∀ r ∈ requests.filter (fun r => decide (r.operation ≠ TypeOperation.create)),
      getMostRecentResource store r.resourceType r.id ≠ none := by
  intro r hr hnone
  unfold missingIds at h
  rw [List.map_eq_nil_iff] at h
  have : r ∈ ((requests.filter (fun r => decide (r.operation ≠ TypeOperation.create))).filter
      (fun r => decide (getMostRecentResource store r.resourceType r.id = none))) :=
    List.mem_filter.mpr ⟨hr, by simp [hnone]⟩
  rw [h] at this
  simp at this

/-- Structure of the lock records and the lock batch built from an
all-found list of lookups. -/
theorem lock_zip_facts (store : Store) (l : List BatchReadWriteRequest)
    (hall : ∀ r ∈ l, getMostRecentResource store r.resourceType r.id ≠ none) :
    ((l.map (fun r => getMostRecentResource store r.resourceType r.id)).filterMap (fun o =>
        o.map (fun f =>
          buildUpdateDocumentStatusParam (some DOCUMENT_STATUS.AVAILABLE) DOCUMENT_STATUS.LOCKED
            f.id f.versionId)))
      = ((l.zip (l.map (fun r => getMostRecentResource store r.resourceType r.id))).filterMap
          (fun p =>
            match p.2 with
            | none => none
            | some found =>
              some ({ id := found.id, vid := some found.versionId,
                      resourceType := found.resourceType, operation := p.1.operation,
                      isOriginalUpdateItem :=
                        if p.1.operation = TypeOperation.update then some true
                        else none } : ItemRequest))).map
          (fun li => StoreRequest.updateStatus (some DOCUMENT_STATUS.AVAILABLE)
            DOCUMENT_STATUS.LOCKED li.id (li.vid.getD "0"))
    ∧ ((l.zip (l.map (fun r => getMostRecentResource store r.resourceType r.id))).filterMap
          (fun p =>
            match p.2 with
            | none => none
            | some found =>
              some ({ id := found.id, vid := some found.versionId,
                      resourceType := found.resourceType, operation := p.1.operation,
                      isOriginalUpdateItem :=
                        if p.1.operation = TypeOperation.update then some true
                        else none } : ItemRequest))).map
          (fun li => (li.id, li.operation, li.isOriginalUpdateItem))
      = l.map (fun r => (r.id, r.operation,
          if r.operation = TypeOperation.update then some true else none)) := by
  induction l with
  | nil => exact ⟨rfl, rfl⟩
  | cons r rest ih =>
    obtain ⟨ih1, ih2⟩ := ih (fun r' hr' => hall r' (List.mem_cons_of_mem _ hr'))
    rcases hg : getMostRecentResource store r.resourceType r.id with _ | f
    · exact absurd hg (hall r (List.mem_cons_self _ _))
    · have hid := (getMostRecentResource_id hg).1
      refine ⟨?_, ?_⟩
      · simp only [List.map_cons, List.zip_cons_cons, List.filterMap_cons, hg]
        rw [ih1]
        rfl
      · simp only [List.map_cons, List.zip_cons_cons, List.filterMap_cons, hg]
        rw [ih2, hid]

/-! ### Staging lock-record structure -/

theorem newLocks_availSet (requests : List BatchReadWriteRequest)
    (m : String → Option String) (freshIds : List String) (now : String) (rb : Bool) :
    ∀ li ∈ (generateStagingRequests requests m freshIds now).newLocks,
      unlockNewStatus li rb = DOCUMENT_STATUS.AVAILABLE := by
  induction requests generalizing freshIds with
  | nil => simp [generateStagingRequests]
  | cons r rest ih =>
    intro li hli
    cases hop : r.operation <;>
      simp only [generateStagingRequests, hop, addStagingResponseAndItemsLocked] at hli
    case create =>
      rcases List.mem_cons.mp hli with he | hmem
      · rw [he]
        simp [unlockNewStatus]
      · exact ih freshIds.tail li hmem
    case update =>
      rcases List.mem_cons.mp hli with he | hmem
      · rw [he]
        simp [unlockNewStatus]
      · exact ih freshIds li hmem
    case read => exact ih freshIds li hli
    case delete => exact ih freshIds li hli
    all_goals exact ih freshIds li hli

theorem newLocks_id_count (requests : List BatchReadWriteRequest)
    (m : String → Option String) (now : String) (X : String) :
    ∀ freshIds : List String,
    (generateStagingRequests requests m freshIds now).newLocks.countP
        (fun li => decide (li.id = X))
      = (createIds requests freshIds).countP (fun c => decide (c = X))
        + requests.countP (fun r =>
            decide (r.operation = TypeOperation.update ∧ r.resource.id = X)) := by
  induction requests with
  | nil => intro freshIds; rfl
  | cons r rest ih =>
    intro freshIds
    cases hop : r.operation <;>
      simp only [generateStagingRequests, createIds, hop, addStagingResponseAndItemsLocked,
        List.countP_cons, ih, decide_eq_true_eq] <;>
      simp [hop] <;>
      omega

theorem newLocks_length (requests : List BatchReadWriteRequest)
    (m : String → Option String) (now : String) :
    ∀ freshIds : List String,
    (generateStagingRequests requests m freshIds now).newLocks.length
      = (requests.filter (fun r => decide (r.operation = TypeOperation.create))).length
        + (requests.filter (fun r => decide (r.operation = TypeOperation.update))).length := by
  induction requests with
  | nil => intro freshIds; rfl
  | cons r rest ih =>
    intro freshIds
    cases hop : r.operation <;>
      simp [generateStagingRequests, hop, addStagingResponseAndItemsLocked,
        List.filter_cons, ih] <;>
      omega

theorem createStagingRequests_length (l : List BatchReadWriteRequest) (now : String) :
    ∀ freshIds : List String, (createStagingRequests l freshIds now).length = l.length := by
  induction l with
  | nil => intro freshIds; rfl
  | cons r rest ih => intro freshIds; simp [createStagingRequests, ih]

theorem createIds_filter (requests : List BatchReadWriteRequest) :
    ∀ freshIds : List String,
    createIds requests freshIds
      = createIds (requests.filter (fun r => decide (r.operation = TypeOperation.create))) freshIds := by
  induction requests with
  | nil => intro freshIds; rfl
  | cons r rest ih =>
    intro freshIds
    cases hop : r.operation <;>
      simp [createIds, hop, List.filter_cons, ih]

theorem createStagingRequests_keys (l : List BatchReadWriteRequest) (now : String)
    (hl : ∀ r ∈ l, r.operation = TypeOperation.create) :
    ∀ freshIds : List String,
    (createStagingRequests l freshIds now).map requestKey
      = (createIds l freshIds).map (fun c => (c, "1")) := by
  induction l with
  | nil => intro freshIds; rfl
  | cons r rest ih =>
    intro freshIds
    have hop := hl r (List.mem_cons_self _ _)
    simp only [createStagingRequests, createIds, hop, List.map_cons, requestKey,
      prepItemForDdbInsert]
    rw [ih (fun r' hr' => hl r' (List.mem_cons_of_mem _ hr'))]

/-- Every staged lock's full id appears among the rollback keys derived from
the staged create/update envelopes. -/
theorem newLocks_fullId_mem_responses (requests : List BatchReadWriteRequest)
    (m : String → Option String) (now : String) :
    ∀ freshIds : List String,
    ∀ li ∈ (generateStagingRequests requests m freshIds now).newLocks,
      lockFullId li ∈ ((generateStagingRequests requests m freshIds now).newStagingResponses.filter
          (fun e => decide (e.operation = TypeOperation.create ∨
            e.operation = TypeOperation.update))).map
        (fun e => generateFullId e.id e.vid) := by
  induction requests with
  | nil => intro freshIds li hli; simp [generateStagingRequests] at hli
  | cons r rest ih =>
    intro freshIds li hli
    cases hop : r.operation <;>
      simp only [generateStagingRequests, hop, addStagingResponseAndItemsLocked] at hli ⊢
    case create =>
      rcases List.mem_cons.mp hli with he | hmem
      · rw [List.filter_cons, if_pos (by simp), List.map_cons]
        refine List.mem_cons.mpr (Or.inl ?_)
        rw [he]
        simp [lockFullId, jsOrStr, generateFullId]
      · rw [List.filter_cons, if_pos (by simp), List.map_cons]
        exact List.mem_cons_of_mem _ (ih freshIds.tail li hmem)
    case update =>
      rcases List.mem_cons.mp hli with he | hmem
      · rw [List.filter_cons, if_pos (by simp), List.map_cons]
        refine List.mem_cons.mpr (Or.inl ?_)
        rw [he]
        simp only [lockFullId, jsOrStr, generateFullId]
        rw [if_neg (updateNewVid_ne_empty m r.resource.id)]
      · rw [List.filter_cons, if_pos (by simp), List.map_cons]
        exact List.mem_cons_of_mem _ (ih freshIds li hmem)
    case read =>
      rw [List.filter_cons, if_neg (by simp)]
      exact ih freshIds li hli
    case delete =>
      rw [List.filter_cons, if_neg (by simp)]
      exact ih freshIds li hli
    all_goals exact ih freshIds li hli

/-! ### Lock-map removal machinery -/

theorem upsertByKey_mem {m : List (String × ItemRequest)} {k : String} {v : ItemRequest}
    {p : String × ItemRequest} (h : p ∈ upsertByKey m k v) : p ∈ m ∨ p = (k, v) := by
  unfold upsertByKey at h
  split at h
  · obtain ⟨q, hq, hfq⟩ := List.mem_map.mp h
    by_cases hm : q.1 = k
    · rw [if_pos hm] at hfq
      exact Or.inr hfq.symm
    · rw [if_neg hm] at hfq
      exact Or.inl (hfq ▸ hq)
  · rcases List.mem_append.mp h with hm | hm
    · exact Or.inl hm
    · exact Or.inr (List.mem_singleton.mp hm)

theorem upsertByKey_keys_nodup {m : List (String × ItemRequest)} {k : String} {v : ItemRequest}
    (h : (m.map Prod.fst).Nodup) : ((upsertByKey m k v).map Prod.fst).Nodup := by
  unfold upsertByKey
  split
  · rw [List.map_map]
    rw [show (Prod.fst ∘ fun p => if p.1 = k then (k, v) else p)
        = (Prod.fst : String × ItemRequest → String) from ?_]
    · exact h
    · funext p
      by_cases hm : p.1 = k
      · simp [hm]
      · simp [hm]
  · rename_i hany
    rw [List.map_append]
    simp only [List.map_cons, List.map_nil]
    rw [List.nodup_append]
    refine ⟨h, List.nodup_singleton _, ?_⟩
    intro s hs
    simp only [List.mem_singleton]
    obtain ⟨q, hq, hfq⟩ := List.mem_map.mp hs
    intro he
    rw [he] at hfq
    have hpay : (fun p => decide (p.1 = k)) q = true := by
      simp only [decide_eq_true_eq]
      exact hfq
    exact absurd (List.any_eq_true.mpr ⟨q, hq, hpay⟩) hany

theorem upsert_fold_entry_pred (P : String × ItemRequest → Prop) (locks : List ItemRequest) :
    ∀ m : List (String × ItemRequest), (∀ p ∈ m, P p) →
    (∀ li ∈ locks, P (generateFullId li.id (jsOrStr li.vid "0"), li)) →
    ∀ p ∈ locks.foldl
      (fun m li => upsertByKey m (generateFullId li.id (jsOrStr li.vid "0")) li) m, P p := by
  induction locks with
  | nil => intro m hm _ p hp; exact hm p hp
  | cons li lks ih =>
    intro m hm hlk p hp
    rw [List.foldl_cons] at hp
    refine ih _ ?_ (fun li' h' => hlk li' (List.mem_cons_of_mem _ h')) p hp
    intro q hq
    rcases upsertByKey_mem hq with h | h
    · exact hm q h
    · rw [h]
      exact hlk li (List.mem_cons_self _ _)

theorem upsert_fold_keys_nodup (locks : List ItemRequest) :
    ∀ m : List (String × ItemRequest), (m.map Prod.fst).Nodup →
    ((locks.foldl
      (fun m li => upsertByKey m (generateFullId li.id (jsOrStr li.vid "0")) li) m).map
        Prod.fst).Nodup := by
  induction locks with
  | nil => intro m hm; exact hm
  | cons li lks ih =>
    intro m hm
    rw [List.foldl_cons]
    exact ih _ (upsertByKey_keys_nodup hm)

theorem countP_upsert_map_le (m : List (String × ItemRequest)) (k : String) (li : ItemRequest)
    (g : String × ItemRequest → Bool) (hnd : (m.map Prod.fst).Nodup) :
    (m.map (fun p => if p.1 = k then (k, li) else p)).countP g
      ≤ m.countP g + (if g (k, li) = true then 1 else 0) := by
  induction m with
  | nil => simp
  | cons q qs ih =>
    simp only [List.map_cons, List.nodup_cons] at hnd
    rw [List.map_cons, List.countP_cons, List.countP_cons]
    by_cases hm : q.1 = k
    · rw [if_pos hm]
      have hqs : qs.map (fun p => if p.1 = k then (k, li) else p) = qs.map id := by
        refine List.map_congr_left (fun p hp => ?_)
        rw [if_neg]
        · rfl
        · intro he
          exact hnd.1 (by rw [hm, ← he]; exact List.mem_map_of_mem _ hp)
      rw [hqs, List.map_id]
      split <;> split <;> omega
    · rw [if_neg hm]
      have := ih hnd.2
      omega

theorem contains_not_bool (rk : List String) (s : String) :
    (!(rk.contains s)) = decide (¬ s ∈ rk) := by
  by_cases hm : s ∈ rk
  · rw [decide_eq_false (by simpa using hm)]
    have : rk.contains s = true := List.elem_iff.mpr hm
    rw [this]
    rfl
  · rw [decide_eq_true hm]
    have : rk.contains s = false := by
      by_cases hc : rk.contains s = true
      · exact absurd (List.elem_iff.mp hc) hm
      · simpa using hc
    rw [this]
    rfl

theorem removeLocks_fold_count_le (rk : List String) (X : String) (locks : List ItemRequest) :
    ∀ m : List (String × ItemRequest), (m.map Prod.fst).Nodup →
    ((locks.foldl
        (fun m li => upsertByKey m (generateFullId li.id (jsOrStr li.vid "0")) li) m).countP
      (fun p => decide (p.2.id = X) && decide (¬ p.1 ∈ rk)))
      ≤ (m.countP (fun p => decide (p.2.id = X) && decide (¬ p.1 ∈ rk)))
        + locks.countP (fun li => decide (li.id = X) && !(rk.contains (lockFullId li))) := by
  induction locks with
  | nil => intro m _; simp
  | cons li lks ih =>
    intro m hnd
    rw [List.foldl_cons, List.countP_cons]
    set k := generateFullId li.id (jsOrStr li.vid "0") with hk
    have hstep : (upsertByKey m k li).countP (fun p => decide (p.2.id = X) && decide (¬ p.1 ∈ rk))
        ≤ m.countP (fun p => decide (p.2.id = X) && decide (¬ p.1 ∈ rk))
          + (if (decide (li.id = X) && !(rk.contains (lockFullId li))) = true then 1 else 0) := by
      unfold upsertByKey
      split
      · have := countP_upsert_map_le m k li
          (fun p => decide (p.2.id = X) && decide (¬ p.1 ∈ rk)) hnd
        refine le_trans this ?_
        have hcond2 : (fun p => decide (p.2.id = X) && decide (¬ p.1 ∈ rk)) (k, li)
            = (decide (li.id = X) && !(rk.contains (lockFullId li))) := by
          show (decide (li.id = X) && decide (¬ k ∈ rk)) = _
          rw [contains_not_bool]
          unfold lockFullId
          rw [← hk]
        rw [hcond2]
      · rw [List.countP_append, List.countP_singleton]
        have hcond : (decide ((k, li).2.id = X) && decide (¬ (k, li).1 ∈ rk))
            = (decide (li.id = X) && !(rk.contains (lockFullId li))) := by
          show (decide (li.id = X) && decide (¬ k ∈ rk)) = _
          rw [contains_not_bool]
          unfold lockFullId
          rw [← hk]
        rw [hcond]
    calc ((lks.foldl (fun m li => upsertByKey m (generateFullId li.id (jsOrStr li.vid "0")) li)
            (upsertByKey m k li)).countP (fun p => decide (p.2.id = X) && decide (¬ p.1 ∈ rk)))
        ≤ (upsertByKey m k li).countP (fun p => decide (p.2.id = X) && decide (¬ p.1 ∈ rk))
          + lks.countP (fun li => decide (li.id = X) && !(rk.contains (lockFullId li))) :=
          ih _ (upsertByKey_keys_nodup hnd)
      _ ≤ _ := by
          by_cases hcnd : (decide (li.id = X) && !(rk.contains (lockFullId li))) = true
          · rw [if_pos hcnd] at hstep ⊢
            omega
          · rw [if_neg hcnd] at hstep ⊢
            omega

/-! ### Generic counting helpers -/

theorem okStoreB_invStore (store : Store) (h : okStoreB store = true) : InvStore store := by
  induction store with
  | nil => intro id; simp [availCount]
  | cons r rs ih =>
    simp only [okStoreB, Bool.and_eq_true, Bool.not_eq_true'] at h
    intro id
    have hrs := ih h.2 id
    unfold availCount at hrs ⊢
    rw [List.countP_cons]
    by_cases hp : (r.id = id ∧ r.status = DOCUMENT_STATUS.AVAILABLE)
    · have h0 : rs.countP (fun r2 => decide (r2.id = id ∧ r2.status = DOCUMENT_STATUS.AVAILABLE))
          = 0 := by
        rw [List.countP_eq_zero]
        intro r2 hr2 hp2
        simp only [decide_eq_true_eq] at hp2
        have hany : rs.any (fun r2 =>
            decide (r2.id = r.id ∧ r2.status = DOCUMENT_STATUS.AVAILABLE)) = true :=
          List.any_eq_true.mpr ⟨r2, hr2, by
            simp only [decide_eq_true_eq]
            exact ⟨hp2.1.trans hp.1.symm, hp2.2⟩⟩
        have h1 := h.1
        rw [hany, decide_eq_true hp.2] at h1
        simp at h1
      rw [h0, if_pos (by simpa using hp)]
    · rw [if_neg (by simpa using hp)]
      omega

theorem foldl_max_mem (rs : List StoreRow) :
    ∀ r : StoreRow,
      rs.foldl (fun a b => if vidNum b.vid > vidNum a.vid then b else a) r ∈ r :: rs := by
  induction rs with
  | nil => intro r; exact List.mem_singleton.mpr rfl
  | cons b bs ih =>
    intro r
    rw [List.foldl_cons]
    rcases List.mem_cons.mp (ih (if vidNum b.vid > vidNum r.vid then b else r)) with h | h
    · rw [h]
      by_cases hc : vidNum b.vid > vidNum r.vid
      · rw [if_pos hc]; exact List.mem_cons_of_mem _ (List.mem_cons_self _ _)
      · rw [if_neg hc]; exact List.mem_cons_self _ _
    · exact List.mem_cons_of_mem _ (List.mem_cons_of_mem _ h)

theorem getMostRecentResource_row {store : Store} {rt id : String} {f : FoundResource}
    (h : getMostRecentResource store rt id = some f) :
    ∃ row, row ∈ store ∧ row.id = id ∧ row.vid = f.versionId ∧
      row.status = DOCUMENT_STATUS.AVAILABLE := by
  rcases hfil : store.filter (fun r =>
      decide (r.id = id ∧ r.resourceType = rt ∧ r.status = DOCUMENT_STATUS.AVAILABLE))
    with _ | ⟨r, rs⟩ <;>
    unfold getMostRecentResource at h <;> rw [hfil] at h
  · exact absurd h (by simp)
  · obtain rfl := (Option.some_inj.mp h).symm
    have hmem : rs.foldl (fun a b => if vidNum b.vid > vidNum a.vid then b else a) r ∈ r :: rs :=
      foldl_max_mem rs r
    rw [← hfil] at hmem
    refine ⟨_, List.mem_of_mem_filter hmem, ?_, rfl, ?_⟩
    · have := List.of_mem_filter hmem
      simp only [decide_eq_true_eq] at this
      exact this.1
    · have := List.of_mem_filter hmem
      simp only [decide_eq_true_eq] at this
      exact this.2.2

theorem avail_vid_unique {store : Store} (hinv : InvStore store) {X : String}
    {r1 r2 : StoreRow} (h1 : r1 ∈ store) (h2 : r2 ∈ store) (hid1 : r1.id = X) (hid2 : r2.id = X)
    (ha1 : r1.status = DOCUMENT_STATUS.AVAILABLE) (ha2 : r2.status = DOCUMENT_STATUS.AVAILABLE) :
    r1.vid = r2.vid := by
  by_contra hne
  have hrne : r1 ≠ r2 := fun he => hne (congrArg StoreRow.vid he)
  have h2le := two_le_countP store
    (fun r => decide (r.id = X ∧ r.status = DOCUMENT_STATUS.AVAILABLE)) r1 r2 h1 h2 hrne
    (by simp [hid1, ha1]) (by simp [hid2, ha2])
  have hle := hinv X
  unfold availCount at hle
  omega

theorem nodup_countP_le_one {α β : Type} [DecidableEq β] (l : List α) (f : α → β)
    (hnd : (l.map f).Nodup) (x : β) : l.countP (fun a => decide (f a = x)) ≤ 1 := by
  induction l with
  | nil => simp
  | cons a as ih =>
    simp only [List.map_cons, List.nodup_cons] at hnd
    rw [List.countP_cons]
    by_cases hfa : f a = x
    · have h0 : as.countP (fun a => decide (f a = x)) = 0 := by
        rw [List.countP_eq_zero]
        intro b hb hpb
        simp only [decide_eq_true_eq] at hpb
        refine hnd.1 ?_
        rw [hfa, ← hpb]
        exact List.mem_map_of_mem f hb
      rw [h0, if_pos (by simpa using hfa)]
    · rw [if_neg (by simpa using hfa)]
      have := ih hnd.2
      omega

theorem countP_disjoint_add_le (l : List α) (p q r : α → Bool)
    (hdisj : ∀ a ∈ l, ¬(p a = true ∧ q a = true))
    (hp : ∀ a ∈ l, p a = true → r a = true) (hq : ∀ a ∈ l, q a = true → r a = true) :
    l.countP p + l.countP q ≤ l.countP r := by
  induction l with
  | nil => simp
  | cons a as ih =>
    have ihh := ih (fun b hb => hdisj b (List.mem_cons_of_mem _ hb))
      (fun b hb => hp b (List.mem_cons_of_mem _ hb))
      (fun b hb => hq b (List.mem_cons_of_mem _ hb))
    rw [List.countP_cons, List.countP_cons, List.countP_cons]
    by_cases hpa : p a = true <;> by_cases hqa : q a = true
    · exact absurd ⟨hpa, hqa⟩ (hdisj a (List.mem_cons_self _ _))
    · rw [if_pos hpa, if_neg hqa, if_pos (hp a (List.mem_cons_self _ _) hpa)]; omega
    · rw [if_neg hpa, if_pos hqa, if_pos (hq a (List.mem_cons_self _ _) hqa)]; omega
    · rw [if_neg hpa, if_neg hqa]; split <;> omega

theorem countP_map_eq_of_map_eq {α β γ : Type} {l1 : List α} {l2 : List β} {f : α → γ}
    {g : β → γ} (h : l1.map f = l2.map g) (p : γ → Bool) :
    l1.countP (fun a => p (f a)) = l2.countP (fun b => p (g b)) := by
  have := congrArg (List.countP p) h
  rwa [List.countP_map, List.countP_map] at this

theorem availSetCount_append (l1 l2 : List ItemRequest) (rb : Bool) (id : String) :
    availSetCount (l1 ++ l2) rb id = availSetCount l1 rb id + availSetCount l2 rb id := by
  unfold availSetCount
  exact List.countP_append _ _ _

theorem availSetCount_rollback (locks : List ItemRequest) (id : String) :
    availSetCount locks true id = locks.countP (fun li => decide (li.id = id)) := by
  unfold availSetCount
  exact List.countP_congr (fun li _ => by simp [unlockNewStatus])

theorem availSetCount_le_one_of_nodup (locks : List ItemRequest)
    (hnd : (locks.map ItemRequest.id).Nodup) (rb : Bool) (id : String) :
    availSetCount locks rb id ≤ 1 := by
  unfold availSetCount
  refine le_trans (List.countP_mono_left (fun li _ hli => ?_)) (nodup_countP_le_one locks ItemRequest.id hnd id)
  simp only [decide_eq_true_eq] at hli ⊢
  exact hli.1

/-! ### Rollback and lock-removal facts -/

theorem removeLocks_mem (locks : List ItemRequest) (removals : List LockRemoval) :
    ∀ li ∈ removeLocksFromArray locks removals, li ∈ locks := by
  intro li hli
  unfold removeLocksFromArray at hli
  obtain ⟨p, hp, hpe⟩ := List.mem_map.mp hli
  have hpf := List.mem_of_mem_filter hp
  have := upsert_fold_entry_pred (fun p => p.2 ∈ locks) locks []
    (fun q hq => absurd hq (List.not_mem_nil q))
    (fun li' hli' => hli') p hpf
  rw [← hpe]
  exact this

theorem removeLocks_count_le (locks : List ItemRequest) (removals : List LockRemoval)
    (X : String) :
    (removeLocksFromArray locks removals).countP (fun li => decide (li.id = X))
      ≤ locks.countP (fun li => decide (li.id = X) &&
          !((removals.map (fun r => generateFullId r.id r.vid)).contains (lockFullId li))) := by
  unfold removeLocksFromArray
  rw [List.countP_map, List.countP_filter]
  have h := removeLocks_fold_count_le (removals.map (fun r => generateFullId r.id r.vid)) X
    locks [] (by simp)
  simpa using h

theorem rollback_removal_keys (resps : List BatchReadWriteResponse) :
    (generateRollbackRequests resps).itemsToRemoveFromLock.map
        (fun r => generateFullId r.id r.vid)
      = (resps.filter (fun e => decide (e.operation = TypeOperation.create ∨
            e.operation = TypeOperation.update))).map (fun e => generateFullId e.id e.vid) := by
  rw [(generateRollbackRequests_characterization resps).2, List.map_map]
  rfl

theorem rollback_batch_nonavail (resps : List BatchReadWriteResponse) :
    ∀ q ∈ (generateRollbackRequests resps).transactionRequests, requestSetsAvail q = false := by
  intro q hq
  rw [(generateRollbackRequests_characterization resps).1] at hq
  obtain ⟨r, _, hqe⟩ := List.mem_map.mp hq
  rw [← hqe]
  rfl

theorem removal_count_le_one (locks nl : List ItemRequest) (resps : List BatchReadWriteResponse)
    (hl1 : ∀ id, locks.countP (fun li => decide (li.id = id)) ≤ 1)
    (hnlcov : ∀ li ∈ nl, lockFullId li ∈
        ((resps.filter (fun e => decide (e.operation = TypeOperation.create ∨
            e.operation = TypeOperation.update))).map (fun e => generateFullId e.id e.vid))) :
    ∀ id, (removeLocksFromArray (locks ++ nl)
          (generateRollbackRequests resps).itemsToRemoveFromLock).countP
        (fun li => decide (li.id = id)) ≤ 1 := by
  intro X
  refine le_trans (removeLocks_count_le (locks ++ nl) _ X) ?_
  rw [List.countP_append]
  have hnl0 : nl.countP (fun li => decide (li.id = X) &&
      !(((generateRollbackRequests resps).itemsToRemoveFromLock.map
          (fun r => generateFullId r.id r.vid)).contains (lockFullId li))) = 0 := by
    rw [List.countP_eq_zero]
    intro li hli hpred
    have hcontains : ((generateRollbackRequests resps).itemsToRemoveFromLock.map
        (fun r => generateFullId r.id r.vid)).contains (lockFullId li) = true := by
      rw [rollback_removal_keys]
      exact List.elem_iff.mpr (hnlcov li hli)
    rw [hcontains] at hpred
    simp at hpred
  rw [hnl0]
  have hlocks : locks.countP (fun li => decide (li.id = X) &&
      !(((generateRollbackRequests resps).itemsToRemoveFromLock.map
          (fun r => generateFullId r.id r.vid)).contains (lockFullId li)))
      ≤ locks.countP (fun li => decide (li.id = X)) := by
    refine List.countP_mono_left (fun li _ h => ?_)
    exact (Bool.and_eq_true _ _).mp h |>.1
  have := hl1 X
  omega

theorem removeLocks_nil_count (locks : List ItemRequest) (X : String) :
    (removeLocksFromArray locks []).countP (fun li => decide (li.id = X))
      ≤ locks.countP (fun li => decide (li.id = X)) := by
  refine le_trans (removeLocks_count_le locks [] X) ?_
  refine le_of_eq (List.countP_congr (fun li _ => ?_))
  simp [List.contains]

/-! ### Population preserves create/update envelopes -/

theorem populate_filter_map_eq (resps : List BatchReadWriteResponse) :
    ∀ (results : List (Option Resource)) (out : List BatchReadWriteResponse),
    populateBundleEntryResponseWithReadResult resps results = Except.ok out →
    (out.filter (fun e => decide (e.operation = TypeOperation.create ∨
        e.operation = TypeOperation.update))).map (fun e => generateFullId e.id e.vid)
      = (resps.filter (fun e => decide (e.operation = TypeOperation.create ∨
          e.operation = TypeOperation.update))).map (fun e => generateFullId e.id e.vid) := by
  induction resps with
  | nil =>
    intro results out h
    simp only [populateBundleEntryResponseWithReadResult] at h
    obtain rfl := (Except.ok.inj h).symm
    rfl
  | cons r rest ih =>
    intro results out h
    simp only [populateBundleEntryResponseWithReadResult] at h
    by_cases hr : r.operation = TypeOperation.read
    · rw [if_pos hr] at h
      split at h
      · exact absurd h (by simp)
      · exact absurd h (by simp)
      · rename_i item restResults
        split at h
        case _ tail hrec =>
          obtain rfl := (Except.ok.inj h).symm
          have hcu : ¬(((populateOneReadResult r item).operation = TypeOperation.create ∨
              (populateOneReadResult r item).operation = TypeOperation.update)) := by
            simp only [populateOneReadResult]
            rw [hr]
            intro hx
            rcases hx with hx | hx <;> exact absurd hx (by simp)
          have hcu2 : ¬((r.operation = TypeOperation.create ∨
              r.operation = TypeOperation.update)) := by
            rw [hr]
            intro hx
            rcases hx with hx | hx <;> exact absurd hx (by simp)
          rw [List.filter_cons, List.filter_cons, if_neg (by simpa using hcu),
            if_neg (by simpa using hcu2)]
          exact ih restResults tail hrec
        case _ e hrec => exact absurd h (by simp)
    · rw [if_neg hr] at h
      split at h
      case _ tail hrec =>
        obtain rfl := (Except.ok.inj h).symm
        rw [List.filter_cons, List.filter_cons]
        by_cases hcu : (r.operation = TypeOperation.create ∨ r.operation = TypeOperation.update)
        · rw [if_pos (by simpa using hcu), if_pos (by simpa using hcu), List.map_cons,
            List.map_cons, ih results tail hrec]
        · rw [if_neg (by simpa using hcu), if_neg (by simpa using hcu)]
          exact ih results tail hrec
      case _ e hrec => exact absurd h (by simp)

/-! ### Ids of the staged lock records -/

theorem newLocks_id_mem (requests : List BatchReadWriteRequest)
    (m : String → Option String) (now : String) :
    ∀ freshIds : List String,
    ∀ li ∈ (generateStagingRequests requests m freshIds now).newLocks,
      li.id ∈ createIds requests freshIds ∨
      ∃ r ∈ requests, r.operation = TypeOperation.update ∧ li.id = r.resource.id := by
  induction requests with
  | nil => intro freshIds li hli; simp [generateStagingRequests] at hli
  | cons r rest ih =>
    intro freshIds li hli
    cases hop : r.operation <;>
      simp only [generateStagingRequests, createIds, hop,
        addStagingResponseAndItemsLocked] at hli ⊢
    case create =>
      rcases List.mem_cons.mp hli with he | hmem
      · exact Or.inl (by rw [he]; exact List.mem_cons_self _ _)
      · rcases ih freshIds.tail li hmem with h | ⟨r', hr', hop', hid'⟩
        · exact Or.inl (List.mem_cons_of_mem _ h)
        · exact Or.inr ⟨r', List.mem_cons_of_mem _ hr', hop', hid'⟩
    case update =>
      rcases List.mem_cons.mp hli with he | hmem
      · exact Or.inr ⟨r, List.mem_cons_self _ _, hop, by rw [he]⟩
      · rcases ih freshIds li hmem with h | ⟨r', hr', hop', hid'⟩
        · exact Or.inl h
        · exact Or.inr ⟨r', List.mem_cons_of_mem _ hr', hop', hid'⟩
    case read =>
      rcases ih freshIds li hli with h | ⟨r', hr', hop', hid'⟩
      · exact Or.inl h
      · exact Or.inr ⟨r', List.mem_cons_of_mem _ hr', hop', hid'⟩
    case delete =>
      rcases ih freshIds li hli with h | ⟨r', hr', hop', hid'⟩
      · exact Or.inl h
      · exact Or.inr ⟨r', List.mem_cons_of_mem _ hr', hop', hid'⟩
    all_goals {
      rcases ih freshIds li hli with h | ⟨r', hr', hop', hid'⟩
      · exact Or.inl h
      · exact Or.inr ⟨r', List.mem_cons_of_mem _ hr', hop', hid'⟩ }

/-! ### The lock phase in closed form -/

theorem lockItems_success_eq2 (requests : List BatchReadWriteRequest) (store : Store)
    (h1 : (nonCreates requests).length ≤ 25)
    (h2 : missingIds requests store = []) :
    lockItems requests store true =
      if 0 < (lockBatchOf store requests).length then
        { successfulLock := true, lockedItems := lockRecordsOf store requests,
          submittedBatch := some (lockBatchOf store requests) }
      else { successfulLock := true, lockedItems := [] } := by
  rw [lockItems_success_eq requests store h1 h2]
  unfold lockRecordsOf lockBatchOf nonCreates
  dsimp only
  rw [List.map_map]
  rfl

theorem lockItems_some_facts (requests : List BatchReadWriteRequest) (store : Store)
    (b1 : List StoreRequest) (h : (lockItems requests store true).submittedBatch = some b1) :
    (nonCreates requests).length ≤ 25 ∧ missingIds requests store = [] := by
  have h25 : (nonCreates requests).length ≤ 25 := by
    by_contra hc
    unfold lockItems at h
    rw [if_pos (by
      simp only [List.length_map]
      exact Nat.lt_of_not_le (fun hle => hc hle))] at h
    exact absurd h (by simp)
  refine ⟨h25, ?_⟩
  by_contra hm
  obtain ⟨r, hr, hop, hg⟩ : ∃ r ∈ requests, r.operation ≠ TypeOperation.create ∧
      getMostRecentResource store r.resourceType r.id = none := by
    rcases hml : missingIds requests store with _ | ⟨x, xs⟩
    · exact absurd hml hm
    · have hxmem : x ∈ missingIds requests store := by
        rw [hml]; exact List.mem_cons_self _ _
      unfold missingIds at hxmem
      obtain ⟨r, hrf, _⟩ := List.mem_map.mp hxmem
      have hin1 := List.mem_filter.mp hrf
      have hin2 := List.mem_filter.mp hin1.1
      exact ⟨r, hin2.1, by simpa using hin2.2, by simpa using hin1.2⟩
  rw [lockItems_notFound_outcome requests store true h25 ⟨r, hr, hop, hg⟩] at h
  exact absurd h (by simp)

theorem lock_phase_facts (store : Store) (requests : List BatchReadWriteRequest)
    (hmiss : missingIds requests store = []) :
    lockBatchOf store requests = (lockRecordsOf store requests).map (fun li =>
        StoreRequest.updateStatus (some DOCUMENT_STATUS.AVAILABLE) DOCUMENT_STATUS.LOCKED
          li.id (li.vid.getD "0"))
  ∧ (lockRecordsOf store requests).map (fun li => (li.id, li.operation, li.isOriginalUpdateItem))
      = (nonCreates requests).map (fun r => (r.id, r.operation,
          if r.operation = TypeOperation.update then some true else none))
  ∧ ∀ li ∈ lockRecordsOf store requests, ∃ row, row ∈ store ∧ row.id = li.id ∧
        some row.vid = li.vid ∧ row.status = DOCUMENT_STATUS.AVAILABLE := by
  have hall : ∀ r ∈ nonCreates requests,
      getMostRecentResource store r.resourceType r.id ≠ none :=
    all_found_of_missingIds_nil hmiss
  obtain ⟨h1, h2⟩ := lock_zip_facts store (nonCreates requests) hall
  refine ⟨h1, h2, ?_⟩
  intro li hli
  unfold lockRecordsOf at hli
  obtain ⟨p, hp, hfp⟩ := List.mem_filterMap.mp hli
  obtain ⟨a, b⟩ := p
  rcases hbe : b with _ | found
  · rw [hbe] at hfp; exact absurd hfp (by simp)
  · rw [hbe] at hfp
    obtain rfl := (Option.some_inj.mp hfp).symm
    have hz := List.of_mem_zip hp
    obtain ⟨r, hr, hgr⟩ := List.mem_map.mp hz.2
    rw [hbe] at hgr
    obtain ⟨row, hrow, hrid, hrvid, hrav⟩ := getMostRecentResource_row hgr
    have hfid := (getMostRecentResource_id hgr).1
    refine ⟨row, hrow, ?_, ?_, hrav⟩
    · show row.id = found.id
      rw [hrid, hfid]
    · show some row.vid = some found.versionId
      rw [hrvid]

theorem lockBatch_nonavail (store : Store) (requests : List BatchReadWriteRequest) :
    ∀ q ∈ lockBatchOf store requests, requestSetsAvail q = false := by
  intro q hq
  unfold lockBatchOf at hq
  obtain ⟨o, _, hoq⟩ := List.mem_filterMap.mp hq
  rcases o with _ | f
  · exact absurd hoq (by simp)
  · obtain rfl := Option.some_inj.mp hoq
    rfl

theorem lock_clears (store : Store) (requests : List BatchReadWriteRequest)
    (hinv : InvStore store) (hmiss : missingIds requests store = []) :
    ∀ li ∈ lockRecordsOf store requests,
      availCount ((lockBatchOf store requests).foldl applyRequest store) li.id = 0 := by
  obtain ⟨hb, _, hrowf⟩ := lock_phase_facts store requests hmiss
  intro li hli
  obtain ⟨row0, hrow0, hid0, hvid0, hav0⟩ := hrowf li hli
  refine availCount_foldl_zero (lockBatchOf store requests) li.id (li.vid.getD "0") store
    (lockBatch_nonavail store requests) ?_ ?_
  · refine ⟨StoreRequest.updateStatus (some DOCUMENT_STATUS.AVAILABLE) DOCUMENT_STATUS.LOCKED
      li.id (li.vid.getD "0"), ?_, rfl, rfl⟩
    rw [hb]
    exact List.mem_map_of_mem _ hli
  · intro row hrow hrid hrav
    have hvu := avail_vid_unique hinv hrow hrow0 hrid hid0 hrav hav0
    rw [← hvid0]
    exact hvu

theorem lock_ids_nodup (store : Store) (requests : List BatchReadWriteRequest)
    (hinv : InvStore store) (hmiss : missingIds requests store = [])
    (hndk : nodupKeysB ((lockBatchOf store requests).map requestKey) = true) :
    ((lockRecordsOf store requests).map ItemRequest.id).Nodup := by
  obtain ⟨hb, _, hrowf⟩ := lock_phase_facts store requests hmiss
  have hkeys : (lockBatchOf store requests).map requestKey
      = (lockRecordsOf store requests).map (fun li => (li.id, li.vid.getD "0")) := by
    rw [hb, List.map_map]
    rfl
  rw [hkeys] at hndk
  have hnd := (nodupKeysB_iff _).mp hndk
  have hfst : ((lockRecordsOf store requests).map (fun li => (li.id, li.vid.getD "0"))).map
      Prod.fst = (lockRecordsOf store requests).map ItemRequest.id := by
    rw [List.map_map]; rfl
  rw [← hfst]
  refine nodup_fst_of_nodup_pairs _ hnd ?_
  intro k1 hk1 k2 hk2 hfst12
  obtain ⟨li1, hli1, hk1e⟩ := List.mem_map.mp hk1
  obtain ⟨li2, hli2, hk2e⟩ := List.mem_map.mp hk2
  obtain ⟨row1, hrow1, hid1, hvid1, hav1⟩ := hrowf li1 hli1
  obtain ⟨row2, hrow2, hid2, hvid2, hav2⟩ := hrowf li2 hli2
  have h1f : k1.1 = li1.id := by rw [← hk1e]
  have h2f : k2.1 = li2.id := by rw [← hk2e]
  have hidq : li1.id = li2.id := by rw [← h1f, ← h2f]; exact hfst12
  have hvv : row1.vid = row2.vid :=
    avail_vid_unique hinv hrow1 hrow2 hid1 (by rw [hid2]; exact hidq.symm) hav1 hav2
  have hg1 : li1.vid.getD "0" = row1.vid := by rw [← hvid1]; rfl
  have hg2 : li2.vid.getD "0" = row2.vid := by rw [← hvid2]; rfl
  rw [← hk1e, ← hk2e, hidq, hg1, hg2, hvv]

theorem lock_nonCreate_mem (store : Store) (requests : List BatchReadWriteRequest)
    (hmiss : missingIds requests store = []) :
    ∀ r ∈ nonCreates requests, ∃ li ∈ lockRecordsOf store requests, li.id = r.id := by
  obtain ⟨_, htr, _⟩ := lock_phase_facts store requests hmiss
  intro r hr
  have hmem : (r.id, r.operation,
      if r.operation = TypeOperation.update then some true else none)
      ∈ (nonCreates requests).map (fun r => (r.id, r.operation,
          if r.operation = TypeOperation.update then some true else none)) :=
    List.mem_map_of_mem _ hr
  rw [← htr] at hmem
  obtain ⟨li, hli, he⟩ := List.mem_map.mp hmem
  exact ⟨li, hli, congrArg Prod.fst he⟩

theorem lockItems_none_success (requests : List BatchReadWriteRequest) (store : Store)
    (hb : (lockItems requests store true).submittedBatch = none)
    (hsl : (lockItems requests store true).successfulLock = true) :
    (lockItems requests store true).lockedItems = [] ∧
    missingIds requests store = [] ∧ nonCreates requests = [] := by
  have h25 : (nonCreates requests).length ≤ 25 := by
    by_contra hc
    unfold lockItems at hsl
    rw [if_pos (by
      simp only [List.length_map]
      exact Nat.lt_of_not_le (fun hle => hc hle))] at hsl
    exact absurd hsl (by simp)
  have hmiss : missingIds requests store = [] := by
    by_contra hm
    obtain ⟨r, hr, hop, hg⟩ : ∃ r ∈ requests, r.operation ≠ TypeOperation.create ∧
        getMostRecentResource store r.resourceType r.id = none := by
      rcases hml : missingIds requests store with _ | ⟨x, xs⟩
      · exact absurd hml hm
      · have hxmem : x ∈ missingIds requests store := by
          rw [hml]; exact List.mem_cons_self _ _
        unfold missingIds at hxmem
        obtain ⟨r, hrf, _⟩ := List.mem_map.mp hxmem
        have hin1 := List.mem_filter.mp hrf
        have hin2 := List.mem_filter.mp hin1.1
        exact ⟨r, hin2.1, by simpa using hin2.2, by simpa using hin1.2⟩
    rw [lockItems_notFound_outcome requests store true h25 ⟨r, hr, hop, hg⟩] at hsl
    exact absurd hsl (by simp)
  have he := lockItems_success_eq2 requests store h25 hmiss
  by_cases hpos : 0 < (lockBatchOf store requests).length
  · rw [he, if_pos hpos] at hb
    exact absurd hb (by simp)
  · obtain ⟨hb1, htr, _⟩ := lock_phase_facts store requests hmiss
    have hlen : (lockBatchOf store requests).length = (nonCreates requests).length := by
      rw [hb1, List.length_map]
      have hh := congrArg List.length htr
      rw [List.length_map, List.length_map] at hh
      exact hh
    have hanc : nonCreates requests = [] := by
      refine List.length_eq_zero.mp ?_
      omega
    exact ⟨by rw [he, if_neg hpos], hmiss, hanc⟩

/-! ### Per-id counting over the acquired locks -/

theorem lock_commit_counts (store : Store) (requests : List BatchReadWriteRequest)
    (hmiss : missingIds requests store = [])
    (hndids : ((lockRecordsOf store requests).map ItemRequest.id).Nodup)
    (hupd : ∀ r ∈ requests, r.operation = TypeOperation.update → r.resource.id = r.id) :
    ∀ X, availSetCount (lockRecordsOf store requests) false X
        + requests.countP (fun r =>
            decide (r.operation = TypeOperation.update ∧ r.resource.id = X)) ≤ 1 := by
  obtain ⟨_, htr, _⟩ := lock_phase_facts store requests hmiss
  intro X
  have hA : availSetCount (lockRecordsOf store requests) false X
      = (nonCreates requests).countP (fun r => decide (r.id = X ∧
          ¬(r.operation = TypeOperation.delete ∨ r.operation = TypeOperation.update))) := by
    unfold availSetCount
    have htrans := countP_map_eq_of_map_eq htr
      (fun t : String × TypeOperation × Option Bool =>
        decide (t.1 = X ∧ ¬(t.2.1 = TypeOperation.delete ∨
          (t.2.1 = TypeOperation.update ∧ t.2.2 = some true))))
    calc (lockRecordsOf store requests).countP (fun li =>
            decide (li.id = X ∧ unlockNewStatus li false = DOCUMENT_STATUS.AVAILABLE))
        = (lockRecordsOf store requests).countP (fun li =>
            decide (li.id = X ∧ ¬(li.operation = TypeOperation.delete ∨
              (li.operation = TypeOperation.update ∧ li.isOriginalUpdateItem = some true)))) := by
          refine List.countP_congr (fun li _ => ?_)
          by_cases hP : (li.operation = TypeOperation.delete ∨
              (li.operation = TypeOperation.update ∧ li.isOriginalUpdateItem = some true)) <;>
            simp [unlockNewStatus, hP]
      _ = (nonCreates requests).countP (fun r => decide (r.id = X ∧
            ¬(r.operation = TypeOperation.delete ∨ (r.operation = TypeOperation.update ∧
              (if r.operation = TypeOperation.update then some true
               else (none : Option Bool)) = some true)))) := htrans
      _ = (nonCreates requests).countP (fun r => decide (r.id = X ∧
            ¬(r.operation = TypeOperation.delete ∨ r.operation = TypeOperation.update))) := by
          refine List.countP_congr (fun r _ => ?_)
          by_cases h2 : r.operation = TypeOperation.update
          · simp [h2]
          · by_cases h1 : r.operation = TypeOperation.delete <;> simp [h1, h2]
  have hBreq : requests.countP (fun r =>
        decide (r.operation = TypeOperation.update ∧ r.resource.id = X))
      = requests.countP (fun r =>
        decide (r.operation = TypeOperation.update ∧ r.id = X)) := by
    refine List.countP_congr (fun r hr => ?_)
    by_cases hu : r.operation = TypeOperation.update
    · rw [hupd r hr hu]
    · simp [hu]
  have hBanc : requests.countP (fun r =>
        decide (r.operation = TypeOperation.update ∧ r.id = X))
      = (nonCreates requests).countP (fun r =>
        decide (r.operation = TypeOperation.update ∧ r.id = X)) := by
    unfold nonCreates
    rw [List.countP_filter]
    refine List.countP_congr (fun r _ => ?_)
    by_cases hu : r.operation = TypeOperation.update <;> simp [hu]
  have hCnt : (nonCreates requests).countP (fun r => decide (r.id = X)) ≤ 1 := by
    have htr2 := countP_map_eq_of_map_eq htr
      (fun t : String × TypeOperation × Option Bool => decide (t.1 = X))
    rw [← htr2]
    exact nodup_countP_le_one _ ItemRequest.id hndids X
  have hD := countP_disjoint_add_le (nonCreates requests)
    (fun r => decide (r.id = X ∧
      ¬(r.operation = TypeOperation.delete ∨ r.operation = TypeOperation.update)))
    (fun r => decide (r.operation = TypeOperation.update ∧ r.id = X))
    (fun r => decide (r.id = X))
    (fun r _ h12 => by
      obtain ⟨hp, hq⟩ := h12
      simp only [decide_eq_true_eq] at hp hq
      exact hp.2 (Or.inr hq.1))
    (fun r _ h => by
      simp only [decide_eq_true_eq] at h ⊢
      exact h.1)
    (fun r _ h => by
      simp only [decide_eq_true_eq] at h ⊢
      exact h.2)
  rw [hA, hBreq, hBanc]
  omega

theorem lock_create_disjoint (store : Store) (requests : List BatchReadWriteRequest)
    (freshIds : List String) (hmiss : missingIds requests store = [])
    (hfresh : ∀ c ∈ createIds requests freshIds, availCount store c = 0)
    (hupd : ∀ r ∈ requests, r.operation = TypeOperation.update → r.resource.id = r.id) :
    ∀ c ∈ createIds requests freshIds,
      availSetCount (lockRecordsOf store requests) false c = 0 ∧
      requests.countP (fun r =>
        decide (r.operation = TypeOperation.update ∧ r.resource.id = c)) = 0 := by
  obtain ⟨_, _, hrowf⟩ := lock_phase_facts store requests hmiss
  intro c hc
  have h0 := hfresh c hc
  constructor
  · unfold availSetCount
    rw [List.countP_eq_zero]
    intro li hli hp
    simp only [decide_eq_true_eq] at hp
    obtain ⟨row, hrow, hrid, _, hrav⟩ := hrowf li hli
    have hpos : 0 < availCount store c := by
      unfold availCount
      refine List.countP_pos_iff.mpr ⟨row, hrow, ?_⟩
      simp only [decide_eq_true_eq]
      exact ⟨by rw [hrid, hp.1], hrav⟩
    omega
  · rw [List.countP_eq_zero]
    intro r hr hp
    simp only [decide_eq_true_eq] at hp
    have hid : r.id = c := by rw [← hupd r hr hp.1]; exact hp.2
    have hrnc : r ∈ nonCreates requests := by
      unfold nonCreates
      refine List.mem_filter.mpr ⟨hr, ?_⟩
      simp [hp.1]
    have hfound := all_found_of_missingIds_nil hmiss r hrnc
    rcases hg : getMostRecentResource store r.resourceType r.id with _ | f
    · exact hfound hg
    · obtain ⟨row, hrow, hrid, _, hrav⟩ := getMostRecentResource_row hg
      have hpos : 0 < availCount store c := by
        unfold availCount
        refine List.countP_pos_iff.mpr ⟨row, hrow, ?_⟩
        simp only [decide_eq_true_eq]
        exact ⟨by rw [hrid, hid], hrav⟩
      omega

/-! ### The staged write batch makes nothing AVAILABLE -/

theorem createStagingRequests_nonavail (l : List BatchReadWriteRequest) (now : String) :
    ∀ freshIds : List String, ∀ q ∈ createStagingRequests l freshIds now,
      requestSetsAvail q = false := by
  induction l with
  | nil => intro freshIds q hq; exact absurd hq (List.not_mem_nil q)
  | cons r rest ih =>
    intro freshIds q hq
    rcases List.mem_cons.mp hq with he | hmem
    · rw [he]; rfl
    · exact ih freshIds.tail q hmem

theorem stage_edit_nonavail (requests : List BatchReadWriteRequest)
    (m : String → Option String) (freshIds : List String) (now : String) :
    ∀ q ∈ (generateStagingRequests requests m freshIds now).deleteRequests
        ++ (generateStagingRequests requests m freshIds now).createRequests
        ++ (generateStagingRequests requests m freshIds now).updateRequests,
      requestSetsAvail q = false := by
  intro q hq
  rcases List.mem_append.mp hq with hq1 | hq2
  · rcases List.mem_append.mp hq1 with hd | hc
    · rw [gsr_deleteRequests_eq] at hd
      obtain ⟨r, _, he⟩ := List.mem_map.mp hd
      rw [← he]; rfl
    · rw [gsr_createRequests_eq] at hc
      exact createStagingRequests_nonavail _ now freshIds q hc
  · rw [gsr_updateRequests_eq] at hq2
    obtain ⟨r, _, he⟩ := List.mem_map.mp hq2
    rw [← he]; rfl

theorem stage_createIds_nodup (requests : List BatchReadWriteRequest)
    (m : String → Option String) (freshIds : List String) (now : String)
    (h : nodupKeysB (((generateStagingRequests requests m freshIds now).deleteRequests
        ++ (generateStagingRequests requests m freshIds now).createRequests
        ++ (generateStagingRequests requests m freshIds now).updateRequests).map
          requestKey) = true) :
    (createIds requests freshIds).Nodup := by
  have hnd := (nodupKeysB_iff _).mp h
  rw [List.map_append, List.map_append] at hnd
  have hcre := hnd.of_append_left.of_append_right
  rw [gsr_createRequests_eq] at hcre
  rw [createStagingRequests_keys _ now
    (fun r hr => by simpa using (List.mem_filter.mp hr).2) freshIds] at hcre
  rw [createIds_filter requests freshIds]
  exact List.Nodup.of_map _ hcre

theorem stage_edit_empty (requests : List BatchReadWriteRequest)
    (m : String → Option String) (freshIds : List String) (now : String)
    (h : ((generateStagingRequests requests m freshIds now).deleteRequests
        ++ (generateStagingRequests requests m freshIds now).createRequests
        ++ (generateStagingRequests requests m freshIds now).updateRequests).isEmpty = true) :
    (generateStagingRequests requests m freshIds now).newLocks = [] ∧
    createIds requests freshIds = [] := by
  have h0 : (generateStagingRequests requests m freshIds now).deleteRequests
      ++ (generateStagingRequests requests m freshIds now).createRequests
      ++ (generateStagingRequests requests m freshIds now).updateRequests = [] := by
    rcases hap : (generateStagingRequests requests m freshIds now).deleteRequests
        ++ (generateStagingRequests requests m freshIds now).createRequests
        ++ (generateStagingRequests requests m freshIds now).updateRequests with _ | ⟨a, l⟩
    · rfl
    · rw [hap] at h
      simp at h
  rw [List.append_eq_nil, List.append_eq_nil] at h0
  obtain ⟨⟨hd, hc⟩, hu⟩ := h0
  have hfc : requests.filter (fun r => decide (r.operation = TypeOperation.create)) = [] := by
    rw [gsr_createRequests_eq] at hc
    have hlen := congrArg List.length hc
    rw [createStagingRequests_length _ now freshIds] at hlen
    exact List.length_eq_zero.mp hlen
  have hfu : requests.filter (fun r => decide (r.operation = TypeOperation.update)) = [] := by
    rw [gsr_updateRequests_eq] at hu
    exact List.map_eq_nil_iff.mp hu
  constructor
  · refine List.length_eq_zero.mp ?_
    rw [newLocks_length requests m now freshIds, hfc, hfu]
    rfl
  · rw [createIds_filter requests freshIds, hfc]
    rfl

theorem nodup_countP_self_le_one (l : List String) (hnd : l.Nodup) (x : String) :
    l.countP (fun c => decide (c = x)) ≤ 1 := by
  induction l with
  | nil => simp
  | cons a as ih =>
    rw [List.nodup_cons] at hnd
    rw [List.countP_cons]
    by_cases ha : a = x
    · have h0 : as.countP (fun c => decide (c = x)) = 0 := by
        rw [List.countP_eq_zero]
        intro b hb hpb
        simp only [decide_eq_true_eq] at hpb
        exact hnd.1 (by rw [ha, ← hpb]; exact hb)
      rw [h0, if_pos (by simpa using ha)]
    · rw [if_neg (by simpa using ha)]
      have := ih hnd.2
      omega

/-! ### Phase 3 preserves the invariant -/

theorem runResolveFailure_inv (store : Store) (resps : List BatchReadWriteResponse)
    (locks : List ItemRequest) (oracle : Nat → Bool) (n : Nat)
    (hwf : keyNodupB store = true) (hinv : InvStore store)
    (hcnt : ∀ id, (removeLocksFromArray locks
        (generateRollbackRequests resps).itemsToRemoveFromLock).countP
        (fun li => decide (li.id = id)) ≤ 1)
    (hclear : ∀ li ∈ locks, availCount store li.id = 0) :
    ∀ s ∈ runResolveFailure store resps locks oracle n, InvStore s := by
  intro s hs
  unfold runResolveFailure at hs
  dsimp only at hs
  split at hs
  · rename_i store2 hab
    have hfold := attemptBatch_eq_foldl hab
    have hna := rollback_batch_nonavail resps
    have hinv2 : InvStore store2 := by
      intro id
      rw [hfold]
      exact le_trans (availCount_foldl_le _ store id hna) (hinv id)
    have hwf2 : keyNodupB store2 = true := by
      rw [hfold]; exact keyNodupB_foldl _ store hwf
    have hclear2 : ∀ li ∈ locks, availCount store2 li.id = 0 := by
      intro li hli
      have hle := availCount_foldl_le (generateRollbackRequests resps).transactionRequests
        store li.id hna
      have h0 := hclear li hli
      rw [hfold]
      omega
    rcases List.mem_cons.mp hs with he | hmem
    · rw [he]; exact hinv2
    · refine runUnlock_inv store2 _ true oracle (n + 1) hwf2 hinv2 ?_ ?_ s hmem
      · intro id
        rw [availSetCount_rollback]
        exact hcnt id
      · intro li hli _
        exact hclear2 li (removeLocks_mem locks _ li hli)
  · rename_i hab
    rcases List.mem_cons.mp hs with he | hmem
    · rw [he]; exact hinv
    · refine runUnlock_inv store _ true oracle (n + 1) hwf hinv ?_ ?_ s hmem
      · intro id
        rw [availSetCount_rollback]
        exact hcnt id
      · intro li hli _
        exact hclear li (removeLocks_mem locks _ li hli)

theorem runResolve_inv (store : Store) (resps : List BatchReadWriteResponse)
    (locks nl : List ItemRequest) (t2 : Bool) (oracle : Nat → Bool) (n : Nat)
    (hwf : keyNodupB store = true) (hinv : InvStore store)
    (hl1 : ∀ id, locks.countP (fun li => decide (li.id = id)) ≤ 1)
    (hnlcov : ∀ li ∈ nl, lockFullId li ∈
        ((resps.filter (fun e => decide (e.operation = TypeOperation.create ∨
            e.operation = TypeOperation.update))).map (fun e => generateFullId e.id e.vid)))
    (hsumC : ∀ id, availSetCount (locks ++ nl) false id ≤ 1)
    (hclear : ∀ li ∈ locks ++ nl, availCount store li.id = 0) :
    ∀ s ∈ runResolve store resps (locks ++ nl) t2 oracle n, InvStore s := by
  intro s hs
  unfold runResolve at hs
  split at hs
  · exact runResolveFailure_inv store resps (locks ++ nl) oracle n hwf hinv
      (removal_count_le_one locks nl resps hl1 hnlcov) hclear s hs
  · exact runUnlock_inv store (locks ++ nl) false oracle n hwf hinv hsumC
      (fun li hli _ => hclear li hli) s hs

theorem runRead_inv (store : Store) (so : StagingOutput)
    (locks nl : List ItemRequest) (resps : List BatchReadWriteResponse)
    (t2 : Bool) (oracle : Nat → Bool) (n : Nat)
    (hwf : keyNodupB store = true) (hinv : InvStore store)
    (hl1 : ∀ id, locks.countP (fun li => decide (li.id = id)) ≤ 1)
    (hnlcov : ∀ li ∈ nl, lockFullId li ∈
        ((resps.filter (fun e => decide (e.operation = TypeOperation.create ∨
            e.operation = TypeOperation.update))).map (fun e => generateFullId e.id e.vid)))
    (hsumC : ∀ id, availSetCount (locks ++ nl) false id ≤ 1)
    (hclear : ∀ li ∈ locks ++ nl, availCount store li.id = 0) :
    ∀ s ∈ runRead store so (locks ++ nl) resps t2 oracle n, InvStore s := by
  intro s hs
  unfold runRead at hs
  split at hs
  · exact runResolve_inv store resps locks nl t2 oracle n hwf hinv hl1 hnlcov hsumC hclear s hs
  · split at hs
    · split at hs
      · rename_i resps2 hpop
        refine runResolve_inv store resps2 locks nl t2 oracle (n + 1) hwf hinv hl1 ?_
          hsumC hclear s hs
        intro li hli
        rw [populate_filter_map_eq resps _ resps2 hpop]
        exact hnlcov li hli
      · rename_i e hpop
        exact runResolveFailure_inv store resps (locks ++ nl) oracle (n + 1) hwf hinv
          (removal_count_le_one locks nl resps hl1 hnlcov) hclear s hs
    · exact runResolveFailure_inv store resps (locks ++ nl) oracle (n + 1) hwf hinv
        (removal_count_le_one locks nl resps hl1 hnlcov) hclear s hs

/-! ### Phase 2 preserves the invariant -/

theorem runStage_inv (store : Store) (requests : List BatchReadWriteRequest)
    (locks : List ItemRequest) (freshIds : List String) (now : String) (t2 : Bool)
    (oracle : Nat → Bool) (n : Nat)
    (hwf : keyNodupB store = true) (hinv : InvStore store)
    (hl1 : ∀ id, locks.countP (fun li => decide (li.id = id)) ≤ 1)
    (hclear : ∀ li ∈ locks, availCount store li.id = 0)
    (hcre : ∀ c ∈ createIds requests freshIds, availCount store c = 0)
    (hupd0 : ∀ r ∈ requests, r.operation = TypeOperation.update →
        availCount store r.resource.id = 0)
    (hsum : ∀ id, availSetCount locks false id + requests.countP (fun r =>
        decide (r.operation = TypeOperation.update ∧ r.resource.id = id)) ≤ 1)
    (hcdisj : ∀ c ∈ createIds requests freshIds, availSetCount locks false c = 0 ∧
        requests.countP (fun r =>
          decide (r.operation = TypeOperation.update ∧ r.resource.id = c)) = 0) :
    ∀ s ∈ runStage store requests locks freshIds now t2 oracle n, InvStore s := by
  intro s hs
  unfold runStage at hs
  dsimp only at hs
  split at hs
  · rename_i hempty
    obtain ⟨hnl, hcids⟩ := stage_edit_empty requests (buildVidMap locks) freshIds now hempty
    refine runRead_inv store _ locks
      (generateStagingRequests requests (buildVidMap locks) freshIds now).newLocks
      (generateStagingRequests requests (buildVidMap locks) freshIds now).newStagingResponses
      t2 oracle n hwf hinv hl1 ?_ ?_ ?_ s hs
    · intro li hli
      rw [hnl] at hli
      exact absurd hli (List.not_mem_nil li)
    · intro id
      rw [availSetCount_append, hnl]
      have h1 := hsum id
      have h2 : availSetCount [] false id = 0 := rfl
      omega
    · intro li hli
      rcases List.mem_append.mp hli with hm | hm
      · exact hclear li hm
      · rw [hnl] at hm
        exact absurd hm (List.not_mem_nil li)
  · rename_i hne
    split at hs
    · rename_i store2 hab
      obtain ⟨hconds, hndk, hst2⟩ := attemptBatch_some_facts hab
      have hna := stage_edit_nonavail requests (buildVidMap locks) freshIds now
      have hinv2 : InvStore store2 := by
        intro id
        rw [hst2]
        exact le_trans (availCount_foldl_le _ store id hna) (hinv id)
      have hwf2 : keyNodupB store2 = true := by
        rw [hst2]; exact keyNodupB_foldl _ store hwf
      have hcndup : (createIds requests freshIds).Nodup :=
        stage_createIds_nodup requests (buildVidMap locks) freshIds now hndk
      have hclear2 : ∀ li ∈ locks ++
          (generateStagingRequests requests (buildVidMap locks) freshIds now).newLocks,
          availCount store2 li.id = 0 := by
        intro li hli
        rw [hst2]
        rcases List.mem_append.mp hli with hm | hm
        · have hle := availCount_foldl_le _ store li.id hna
          have h0 := hclear li hm
          omega
        · rcases newLocks_id_mem requests (buildVidMap locks) now freshIds li hm with
            hcm | ⟨r, hr, hop, hid⟩
          · have hle := availCount_foldl_le _ store li.id hna
            have h0 := hcre li.id hcm
            omega
          · rw [hid]
            have hle := availCount_foldl_le _ store r.resource.id hna
            have h0 := hupd0 r hr hop
            omega
      rcases List.mem_cons.mp hs with he | hmem
      · rw [he]; exact hinv2
      · refine runRead_inv store2 _ locks
          (generateStagingRequests requests (buildVidMap locks) freshIds now).newLocks
          (generateStagingRequests requests (buildVidMap locks) freshIds now).newStagingResponses
          t2 oracle (n + 1) hwf2 hinv2 hl1 ?_ ?_ hclear2 s hmem
        · exact newLocks_fullId_mem_responses requests (buildVidMap locks) now freshIds
        · intro X
          rw [availSetCount_append]
          have hnlavail : availSetCount
              (generateStagingRequests requests (buildVidMap locks) freshIds now).newLocks false X
              = (generateStagingRequests requests (buildVidMap locks) freshIds
                  now).newLocks.countP (fun li => decide (li.id = X)) := by
            unfold availSetCount
            refine List.countP_congr (fun li hli => ?_)
            have hset := newLocks_availSet requests (buildVidMap locks) freshIds now false li hli
            simp [hset]
          rw [hnlavail, newLocks_id_count requests (buildVidMap locks) now X freshIds]
          by_cases hcx : (createIds requests freshIds).countP (fun c => decide (c = X)) = 0
          · have := hsum X
            omega
          · have hxmem : X ∈ createIds requests freshIds := by
              have hpos : 0 < (createIds requests freshIds).countP (fun c => decide (c = X)) :=
                Nat.pos_of_ne_zero hcx
              obtain ⟨c, hcm, hcp⟩ := List.countP_pos_iff.mp hpos
              simp only [decide_eq_true_eq] at hcp
              rw [← hcp]; exact hcm
            obtain ⟨hd1, hd2⟩ := hcdisj X hxmem
            have hle1 := nodup_countP_self_le_one (createIds requests freshIds) hcndup X
            omega
    · rename_i hab
      rcases List.mem_cons.mp hs with he | hmem
      · rw [he]; exact hinv
      · refine runResolveFailure_inv store [] locks oracle (n + 1) hwf hinv ?_ hclear s hmem
        intro id
        exact le_trans (removeLocks_nil_count locks id) (hl1 id)

/-! ## C8: the one-AVAILABLE-per-id invariant across a full transaction -/

/-- C8 (amended): over a well-formed store (at most one `AVAILABLE` row per
id, and one row per `(id, versionId)` key), provided every id written by a
create operation (caller-supplied or minted) has no `AVAILABLE` version in
the store and every update operation's `resource.id` equals its request
`id`, every store snapshot reached after any `transactWriteItems`
round-trip of a full transaction run — the `AVAILABLE → LOCKED` lock batch,
the `PENDING`/`PENDING_DELETE` staged write batch, the rollback delete
batch and every unlock chunk, on both the commit and the rollback paths —
again has at most one `AVAILABLE` version of each id. -/
theorem transaction_preserves_at_most_one_available (store : Store)
    (requests : List BatchReadWriteRequest) (freshIds : List String) (now : String)
    (t1 t2 : Bool) (oracle : Nat → Bool)
    (hok : okStoreB store = true) (hwf : keyNodupB store = true)
    (hfresh : ∀ c ∈ createIds requests freshIds, availCount store c = 0)
    (hupd : ∀ r ∈ requests, r.operation = TypeOperation.update → r.resource.id = r.id) :
    ∀ s ∈ runTransaction store requests freshIds now t1 t2 oracle,
      ∀ id, availCount s id ≤ 1 := by
  have hinv : InvStore store := okStoreB_invStore store hok
  intro s hs
  show InvStore s
  unfold runTransaction at hs
  dsimp only at hs
  split at hs
  · exact absurd hs (List.not_mem_nil s)
  · split at hs
    · rename_i b1 hsb
      obtain ⟨h25, hmiss⟩ := lockItems_some_facts requests store b1 hsb
      have he := lockItems_success_eq2 requests store h25 hmiss
      by_cases hpos : 0 < (lockBatchOf store requests).length
      · have hb1 : b1 = lockBatchOf store requests := by
          rw [he, if_pos hpos] at hsb
          exact (Option.some_inj.mp hsb).symm
        have hli : (lockItems requests store true).lockedItems = lockRecordsOf store requests := by
          rw [he, if_pos hpos]
        rw [hb1, hli] at hs
        split at hs
        · rename_i store1 hab
          obtain ⟨hconds, hndk, hst1⟩ := attemptBatch_some_facts hab
          have hna := lockBatch_nonavail store requests
          have hinv1 : InvStore store1 := by
            intro id
            rw [hst1]
            exact le_trans (availCount_foldl_le _ store id hna) (hinv id)
          have hwf1 : keyNodupB store1 = true := by
            rw [hst1]; exact keyNodupB_foldl _ store hwf
          have hndids := lock_ids_nodup store requests hinv hmiss hndk
          have hclear1 : ∀ li ∈ lockRecordsOf store requests, availCount store1 li.id = 0 := by
            intro li hli2
            rw [hst1]
            exact lock_clears store requests hinv hmiss li hli2
          split at hs
          · rcases List.mem_cons.mp hs with hse | hmem
            · rw [hse]; exact hinv1
            · exact runUnlock_inv store1 (lockRecordsOf store requests) true oracle 1 hwf1 hinv1
                (availSetCount_le_one_of_nodup _ hndids true)
                (fun li hli2 _ => hclear1 li hli2) s hmem
          · rcases List.mem_cons.mp hs with hse | hmem
            · rw [hse]; exact hinv1
            · refine runStage_inv store1 requests (lockRecordsOf store requests) freshIds now t2
                oracle 1 hwf1 hinv1 ?_ hclear1 ?_ ?_ ?_ ?_ s hmem
              · intro id
                exact nodup_countP_le_one _ ItemRequest.id hndids id
              · intro c hc
                rw [hst1]
                have h0 := hfresh c hc
                have hle := availCount_foldl_le _ store c hna
                omega
              · intro r hr hopu
                have hrnc : r ∈ nonCreates requests := by
                  unfold nonCreates
                  exact List.mem_filter.mpr ⟨hr, by simp [hopu]⟩
                obtain ⟨li, hli2, hlid⟩ := lock_nonCreate_mem store requests hmiss r hrnc
                rw [hupd r hr hopu, ← hlid]
                exact hclear1 li hli2
              · exact lock_commit_counts store requests hmiss hndids hupd
              · exact lock_create_disjoint store requests freshIds hmiss hfresh hupd
        · rename_i hab
          rw [List.mem_singleton.mp hs]
          exact hinv
      · rw [he, if_neg hpos] at hsb
        exact absurd hsb (by simp)
    · rename_i hsb
      split at hs
      · rename_i hsl
        obtain ⟨hli, hmiss, hanc⟩ := lockItems_none_success requests store hsb hsl
        rw [hli] at hs
        have hcnt0 : ∀ X, requests.countP (fun r =>
            decide (r.operation = TypeOperation.update ∧ r.resource.id = X)) = 0 := by
          intro X
          rw [List.countP_eq_zero]
          intro r hr hp
          simp only [decide_eq_true_eq] at hp
          have hrnc : r ∈ nonCreates requests := by
            unfold nonCreates
            exact List.mem_filter.mpr ⟨hr, by simp [hp.1]⟩
          rw [hanc] at hrnc
          exact absurd hrnc (List.not_mem_nil r)
        split at hs
        · have hru : runUnlock store ([] : List ItemRequest) true oracle 0 = [] := rfl
          rw [hru] at hs
          exact absurd hs (List.not_mem_nil s)
        · refine runStage_inv store requests [] freshIds now t2 oracle 0 hwf hinv ?_ ?_ hfresh
            ?_ ?_ ?_ s hs
          · intro id; simp
          · intro li hli2; exact absurd hli2 (List.not_mem_nil li)
          · intro r hr hopu
            have hrnc : r ∈ nonCreates requests := by
              unfold nonCreates
              exact List.mem_filter.mpr ⟨hr, by simp [hopu]⟩
            rw [hanc] at hrnc
            exact absurd hrnc (List.not_mem_nil r)
          · intro id
            have h1 := hcnt0 id
            have h2 : availSetCount [] false id = 0 := rfl
            omega
          · intro c hc
            exact ⟨rfl, hcnt0 c⟩
      · exact absurd hs (List.not_mem_nil s)

/-- Witness for the amended C8: a create with a fresh id over a store
holding one `AVAILABLE` version of another id; every hypothesis holds and
the theorem applies. -/
theorem transaction_preserves_at_most_one_available_witness :
    okStoreB c8CxStore = true ∧ keyNodupB c8CxStore = true ∧
    (∀ c ∈ createIds c8WitReqs [], availCount c8CxStore c = 0) ∧
    (∀ r ∈ c8WitReqs, r.operation = TypeOperation.update → r.resource.id = r.id) ∧
    (∀ s ∈ runTransaction c8CxStore c8WitReqs [] "T0" false false (fun _ => true),
      ∀ id, availCount s id ≤ 1) :=
  ⟨by decide, by decide, by decide, by decide,
   transaction_preserves_at_most_one_available c8CxStore c8WitReqs [] "T0" false false
     (fun _ => true) (by decide) (by decide) (by decide) (by decide)⟩
